import Mathlib

/-!
Verification of the backlog (materialized result cache) of
`noria-server/dataflow/src/backlog/mod.rs`.

The `WriteHandle`, `SingleReadHandle` and `ReadHandle` operations are
embedded directly from the source. The backing keyed multi-maps
(`multiw_sr` / `multir_sr` / `multiw` / `multir`, wrapping the srmap and
evmap crates) are part of this repository but are not among the provided
source files; they are modelled from the specification (sections 4.2 and
4.3 of spec.md), as marked on each such definition. The specialization on
key arity (Single / Double / Many variants) is collapsed into one map
keyed by a list of values, and the replay trigger callback is modelled by
its presence (a Bool), since its invocation is side-effect-only.
-/

namespace Backlog

/-- A value stored in a record (`DataType` in the source, whose definition
lives outside the provided files); modelled as a small sum of an integer
and a text value, enough to express the claims. -/
inductive DataType where
  | DInt (n : Int)
  | DText (s : String)
deriving DecidableEq, Repr

/-- Modelled from the spec: `deep_size_of` is a per-value memory measure.
The exact byte counts are irrelevant to the claims; a fixed positive
measure is used. -/
def dataTypeSize : DataType → Nat
  | DataType.DInt _ => 8
  | DataType.DText s => 8 + s.length

/-- Deep size of one record (sum over its fields). -/
def deepSizeOf (r : List DataType) : Nat :=
  r.foldl (fun a d => a + dataTypeSize d) 0

/-- A delta: `Record::Positive` inserts a record, `Record::Negative`
deletes one matching occurrence. -/
inductive Record where
  | positive (r : List DataType)
  | negative (r : List DataType)
deriving DecidableEq, Repr

/-- A key value: the projection of a record onto the key columns. -/
def KeyV : Type := List DataType
deriving DecidableEq, Repr

/-- A stored record in the shared-read (multi-user) map: the record
together with the list of user ids authorized to see it.
Modelled from the spec: "each record is tagged with a set of authorized
user ids". -/
def TRec : Type := List DataType × List Nat
deriving DecidableEq, Repr

/-- Key projection: `key_cols` mapped over the record (spec section 3:
"a projection of a record onto a fixed list of column indices"). -/
def keyOf (kc : List Nat) (r : List DataType) : KeyV :=
  kc.map (fun i => r.getD i (DataType.DInt 0))

/-- Sum of deep sizes over a list of plain records. -/
def sumSizes : List (List DataType) → Nat
  | [] => 0
  | r :: rest => deepSizeOf r + sumSizes rest

/-- Association-list lookup in a keyed bag map. -/
def bagLookup {α : Type} : List (KeyV × α) → KeyV → Option α
  | [], _ => none
  | (k', v) :: rest, k => if k' = k then some v else bagLookup rest k

/-- Append a tagged record to the key's bag, creating the entry if absent
(insertion order within a key is preserved; new keys go to the end). -/
def bagAppend : List (KeyV × List TRec) → KeyV → TRec → List (KeyV × List TRec)
  | [], k, t => [(k, [t])]
  | (k', bag) :: rest, k, t =>
    if k' = k then (k', bag ++ [t]) :: rest else (k', bag) :: bagAppend rest k t

/-- Replace the bag of an existing key (no-op when the key is absent). -/
def bagSet : List (KeyV × List TRec) → KeyV → List TRec → List (KeyV × List TRec)
  | [], _, _ => []
  | (k', bag) :: rest, k, b =>
    if k' = k then (k', b) :: rest else (k', bag) :: bagSet rest k b

/-- Force the key to Filled-empty: replace its bag with the empty bag,
creating the entry if absent (the srmap `clear` of spec section 4.2). -/
def bagClear : List (KeyV × List TRec) → KeyV → List (KeyV × List TRec)
  | [], k => [(k, [])]
  | (k', bag) :: rest, k =>
    if k' = k then (k', []) :: rest else (k', bag) :: bagClear rest k

/-- Remove the key's entry entirely (the srmap `empty` of spec section
4.2: transition the key to Hole). -/
def bagRemove : List (KeyV × List TRec) → KeyV → List (KeyV × List TRec)
  | [], _ => []
  | (k', bag) :: rest, k =>
    if k' = k then bagRemove rest k else (k', bag) :: bagRemove rest k

/-- Modelled from the spec: a Negative delta from user `uid` cancels the
first stored copy of the record visible to `uid`. The user id is removed
from the copy's tag set; the copy is dropped (and memory freed) when no
tags remain. Returns the new bag and whether a copy was fully removed. -/
def removeFirstTagged (uid : Nat) (r : List DataType) :
    List TRec → Option (List TRec × Bool)
  | [] => none
  | (r', us) :: rest =>
    if r' = r ∧ uid ∈ us then
      if us.erase uid = [] then some (rest, true)
      else some ((r', us.erase uid) :: rest, false)
    else
      (removeFirstTagged uid r rest).map (fun p => ((r', us) :: p.1, p.2))

/-- Records of a bag visible to user `uid` (spec section 3: "a record is
visible to user u iff u appears in the record's authorized-user set"). -/
def visibleRecs (uid : Nat) (bag : List TRec) : List (List DataType) :=
  bag.filterMap (fun t => if uid ∈ t.2 then some t.1 else none)

/-- Deep size of a bag: each stored copy counted once. -/
def bagSize : List TRec → Nat
  | [] => 0
  | (r, _) :: rest => deepSizeOf r + bagSize rest

/-- Total deep size of all records in a keyed bag map. -/
def curTotal : List (KeyV × List TRec) → Nat
  | [] => 0
  | (_, bag) :: rest => bagSize bag + curTotal rest

/-- Modelled from the spec: the state of one shared-read (srmap) backing
map. `published` is the snapshot readers observe; `cur` is the writer's
up-to-date side with all staged operations applied (the classic
double-buffered map of spec section 4.2); `refreshed` records whether the
first publish has happened; `meta` is the map-wide meta value; `nextUid`
feeds `clone_new_user` with fresh user ids. -/
structure SRState where
  published : List (KeyV × List TRec)
  cur : List (KeyV × List TRec)
  refreshed : Bool
  meta : Int
  nextUid : Nat
deriving DecidableEq, Repr

/-- Modelled from the spec: `srmap::construct(meta)` yields an empty,
not-yet-published map. -/
def srConstruct (m : Int) : SRState :=
  { published := [], cur := [], refreshed := false, meta := m, nextUid := 1 }

/-- Modelled from the spec (section 4.2 `add`): apply one delta to the
writer's current side, accumulating the signed memory delta. A Positive
appends a record tagged with the writing user; a Negative cancels one
matching visible occurrence (a no-op when none matches), decreasing the
memory delta only when a stored copy is fully removed. -/
def applyDeltaSR (kc : List Nat) (uid : Nat) :
    List (KeyV × List TRec) × Int → Record → List (KeyV × List TRec) × Int
  | (cur, acc), Record.positive r =>
    (bagAppend cur (keyOf kc r) (r, [uid]), acc + (deepSizeOf r : Int))
  | (cur, acc), Record.negative r =>
    match bagLookup cur (keyOf kc r) with
    | none => (cur, acc)
    | some bag =>
      match removeFirstTagged uid r bag with
      | none => (cur, acc)
      | some (bag', fully) =>
        (bagSet cur (keyOf kc r) bag',
         acc - (if fully then (deepSizeOf r : Int) else 0))

/-- Modelled from the spec (section 4.3 `add`): stage a batch of deltas
for user `uid`, returning the new state and the signed `mem_delta`.
The `cols` argument (record arity) is carried for signature fidelity. -/
def addSR (kc : List Nat) (_cols : Nat) (uid : Nat) (rs : List Record)
    (st : SRState) : SRState × Int :=
  let p := rs.foldl (applyDeltaSR kc uid) (st.cur, 0)
  ({ st with cur := p.1 }, p.2)

/-- Modelled from the spec (section 4.2 `refresh`): atomically publish all
staged changes; after this, readers observe the writer's current side. -/
def srRefresh (st : SRState) : SRState :=
  { st with published := st.cur, refreshed := true }

/-- Modelled from the spec (section 4.2, reader side `meta_get_and`):
`none` before the first refresh; otherwise the key's published bag,
filtered to the reader's user, passed through `f`, with the meta value. -/
def srReaderGet {T : Type} (st : SRState) (uid : Nat) (k : KeyV)
    (f : List (List DataType) → T) : Option (Option T × Int) :=
  if st.refreshed then
    some ((bagLookup st.published k).map (fun bag => f (visibleRecs uid bag)), st.meta)
  else none

/-- Modelled from the spec (section 4.2, writer side `meta_get_and`):
the writer-side peek always succeeds (its result shape is
`(f(records) | None, meta)`), observing the writer's current side, so the
outer `Some` in the source's patterns always matches. -/
def srWriterPeek {T : Type} (st : SRState) (uid : Nat) (k : KeyV)
    (f : List (List DataType) → T) : Option T × Int :=
  ((bagLookup st.cur k).map (fun bag => f (visibleRecs uid bag)), st.meta)

/-- Modelled from the spec (section 4.2 `clear`): force the key to state
Filled, empty. -/
def srClear (k : KeyV) (st : SRState) : SRState :=
  { st with cur := bagClear st.cur k }

/-- Modelled from the spec (section 4.2 `empty`): force the key to state
Hole (removes the entry). -/
def srEmpty (k : KeyV) (st : SRState) : SRState :=
  { st with cur := bagRemove st.cur k }

/-- Modelled from the spec: `is_empty` on the backing map. -/
def srIsEmpty (st : SRState) : Bool :=
  st.cur.isEmpty

/-- Modelled from the spec (sections 4.2 and 9 `empty_at_index`): the
random input is interpreted modulo the current number of keys; the chosen
key is evicted and its records returned for size accounting; nothing is
returned when the map is empty. -/
def srEmptyAtIndex (n : Nat) (st : SRState) :
    Option (List (List DataType)) × SRState :=
  match st.cur with
  | [] => (none, st)
  | _ =>
    let i := n % st.cur.length
    match st.cur.get? i with
    | some (_, bag) =>
      (some (bag.map (fun t => t.1)), { st with cur := st.cur.eraseIdx i })
    | none => (none, st)

/-- Modelled from the spec (section 4.3 `clone_new_user`): mint a fresh
user id sharing the backing map. -/
def srCloneNewUser (st : SRState) : Nat × SRState :=
  (st.nextUid, { st with nextUid := st.nextUid + 1 })

/-- State of one single-user (evmap) backing map: the untagged analogue
of `SRState`. Modelled from the spec (section 4.2). -/
structure EVState where
  published : List (KeyV × List (List DataType))
  cur : List (KeyV × List (List DataType))
  refreshed : Bool
  meta : Int
deriving DecidableEq, Repr

/-- Modelled from the spec: `evmap::Options::construct` with meta. -/
def evConstruct (m : Int) : EVState :=
  { published := [], cur := [], refreshed := false, meta := m }

/-- Untagged bag append (single-user map). -/
def bagAppendEV : List (KeyV × List (List DataType)) → KeyV → List DataType →
    List (KeyV × List (List DataType))
  | [], k, r => [(k, [r])]
  | (k', bag) :: rest, k, r =>
    if k' = k then (k', bag ++ [r]) :: rest else (k', bag) :: bagAppendEV rest k r

/-- Untagged bag replacement (single-user map). -/
def bagSetEV : List (KeyV × List (List DataType)) → KeyV → List (List DataType) →
    List (KeyV × List (List DataType))
  | [], _, _ => []
  | (k', bag) :: rest, k, b =>
    if k' = k then (k', b) :: rest else (k', bag) :: bagSetEV rest k b

/-- Remove one occurrence of a record from a plain bag (no-op when
absent). -/
def removeOneL (r : List DataType) : List (List DataType) → List (List DataType)
  | [] => []
  | x :: rest => if x = r then rest else x :: removeOneL r rest

/-- Modelled from the spec (section 4.2 `add`, single-user): Positive
appends, Negative removes one matching occurrence. -/
def applyDeltaEV (kc : List Nat) :
    List (KeyV × List (List DataType)) × Int → Record →
    List (KeyV × List (List DataType)) × Int
  | (cur, acc), Record.positive r =>
    (bagAppendEV cur (keyOf kc r) r, acc + (deepSizeOf r : Int))
  | (cur, acc), Record.negative r =>
    let k := keyOf kc r
    match bagLookup cur k with
    | none => (cur, acc)
    | some bag =>
      if r ∈ bag then (bagSetEV cur k (removeOneL r bag), acc - (deepSizeOf r : Int))
      else (cur, acc)

/-- Modelled from the spec: stage a batch of deltas on the single-user
map, returning the signed memory delta. -/
def addEV (kc : List Nat) (_cols : Nat) (rs : List Record) (st : EVState) :
    EVState × Int :=
  let p := rs.foldl (applyDeltaEV kc) (st.cur, 0)
  ({ st with cur := p.1 }, p.2)

/-- Modelled from the spec: publish staged changes on the single-user
map. -/
def evRefresh (st : EVState) : EVState :=
  { st with published := st.cur, refreshed := true }

/-- Modelled from the spec: reader-side `meta_get_and` on the single-user
map. -/
def evReaderGet {T : Type} (st : EVState) (k : KeyV)
    (f : List (List DataType) → T) : Option (Option T × Int) :=
  if st.refreshed then
    some ((bagLookup st.published k).map (fun bag => f bag), st.meta)
  else none

/-- Untagged total size of the single-user map's current side. -/
def evTotal (m : List (KeyV × List (List DataType))) : Nat :=
  match m with
  | [] => 0
  | (_, bag) :: rest => sumSizes bag + evTotal rest

/-- Modelled from the spec: `is_empty` on the single-user map. -/
def evIsEmpty (st : EVState) : Bool :=
  st.cur.isEmpty

/-- Modelled from the spec: `empty_at_index` on the single-user map. -/
def evEmptyAtIndex (n : Nat) (st : EVState) :
    Option (List (List DataType)) × EVState :=
  match st.cur with
  | [] => (none, st)
  | _ =>
    let i := n % st.cur.length
    match st.cur.get? i with
    | some (_, bag) => (some bag, { st with cur := st.cur.eraseIdx i })
    | none => (none, st)

/-- The writer handle embedded from `backlog/mod.rs` (struct `WriteHandle`).
The backing storage, owned by the writer per spec section 3 ("the writer
owns the authoritative data structure"), is carried inline in the
`handle` / `handleSR` fields. The source field `partial` is a Lean
keyword and is named `pflag` here. -/
structure WriteHandle where
  handle : Option EVState
  handleSR : Option SRState
  srmap : Bool
  pflag : Bool
  cols : Nat
  key : List Nat
  contiguous : Bool
  mem_size : Nat
  uid : Nat
deriving DecidableEq, Repr

/-- The per-shard reader handle embedded from `backlog/mod.rs` (struct
`SingleReadHandle`). Its `handle` / `handleSR` fields are views onto the
storage owned by the matching writer, so reader operations below take the
writer's `Option`-wrapped states as arguments in their place; the replay
trigger is modelled by its presence. -/
structure SingleReadHandle where
  srmap : Bool
  trigger : Bool
  key : List Nat
  uid : Nat
deriving DecidableEq, Repr

/-- The contiguity check of `new_inner` (the `for` loop over `key`):
every index is the successor of the previous one. -/
def contiguousKey : List Nat → Bool
  | [] => true
  | [_] => true
  | a :: b :: rest => decide (b = a + 1) && contiguousKey (b :: rest)

/-- Fatal invariant breaches (`unreachable!` / `checked_sub(..).unwrap()`
panics in the source), distinguished by panic site. -/
inductive Abort where
  | alreadyFilled
  | underflow
  | evictEmpty
deriving DecidableEq, Repr

/-- `new_inner` from the source. Note the source line `let mut srmap =
true;` that shadows the `srmap` argument before the backend is chosen, so
the first branch (shared-read backend) is always taken. The arity match
is kept: an empty key list hits `unreachable!`, modelled as `none`; in
the (dead) single-user branch a key arity of three or more also hits
`unreachable!`. -/
def new_inner (srmap0 : Bool) (cols : Nat) (key : List Nat) (trigger : Bool)
    (uid : Nat) : Option (SingleReadHandle × WriteHandle) :=
  let contiguous := contiguousKey key
  let srmap := true
  if srmap then
    match key.length with
    | 0 => none
    | _ =>
      let st := srConstruct (-1)
      some ({ srmap := true, trigger := trigger, key := key, uid := uid },
            { handle := none, handleSR := some st, srmap := true,
              pflag := trigger, cols := cols, key := key,
              contiguous := contiguous, mem_size := 0, uid := uid })
  else
    match key.length with
    | 0 => none
    | 1 =>
      let st := evConstruct (-1)
      some ({ srmap := false, trigger := trigger, key := key, uid := uid },
            { handle := some st, handleSR := none, srmap := false,
              pflag := trigger, cols := cols, key := key,
              contiguous := contiguous, mem_size := 0, uid := uid })
    | 2 =>
      let st := evConstruct (-1)
      some ({ srmap := false, trigger := trigger, key := key, uid := uid },
            { handle := some st, handleSR := none, srmap := false,
              pflag := trigger, cols := cols, key := key,
              contiguous := contiguous, mem_size := 0, uid := uid })
    | _ => none

/-- `new` from the source: allocate a fully materialized table (no
trigger). -/
def new (srmap : Bool) (cols : Nat) (key : List Nat) (uid : Nat) :
    Option (SingleReadHandle × WriteHandle) :=
  new_inner srmap cols key false uid

/-- A writer-side entry for one key (`MutWriteHandleEntry`). -/
structure MutWriteHandleEntry where
  handle : WriteHandle
  key : KeyV

/-- `WriteHandle::mut_with_key`. -/
def WriteHandle.mut_with_key (w : WriteHandle) (k : KeyV) : MutWriteHandleEntry :=
  { handle := w, key := k }

/-- `MutWriteHandleEntry::mark_filled`: matches only `handleSR` (a no-op
when it is `None`); probes the key with `is_empty` and clears it when the
probe shows no entry, otherwise hits
`unreachable!("attempted to fill already-filled key")`. -/
def MutWriteHandleEntry.mark_filled (e : MutWriteHandleEntry) :
    Except Abort WriteHandle :=
  match e.handle.handleSR with
  | some st =>
    match (srWriterPeek st e.handle.uid e.key (fun rs => rs.isEmpty)).1 with
    | none => Except.ok { e.handle with handleSR := some (srClear e.key st) }
    | some _ => Except.error Abort.alreadyFilled
  | none => Except.ok e.handle

/-- `MutWriteHandleEntry::mark_hole`: matches only `handleSR` (a no-op
when it is `None`); subtracts the key's aggregated deep size (0 when the
key is absent) from `mem_size` with `checked_sub(..).unwrap()`, then
empties the key. -/
def MutWriteHandleEntry.mark_hole (e : MutWriteHandleEntry) :
    Except Abort WriteHandle :=
  match e.handle.handleSR with
  | some st =>
    let size := ((srWriterPeek st e.handle.uid e.key
        (fun rs => sumSizes rs)).1).getD 0
    if size ≤ e.handle.mem_size then
      let w' := { e.handle with mem_size := e.handle.mem_size - size,
                                handleSR := some (srEmpty e.key st) }
      Except.ok w'
    else Except.error Abort.underflow
  | none => Except.ok e.handle

/-- The `mem_size` update at the end of `WriteHandle::add`: a positive
delta is added, a negative one subtracted with
`checked_sub(..).unwrap()` (failure is the underflow abort). -/
def applyMemDelta (mem : Nat) (d : Int) : Option Nat :=
  if 0 < d then some (mem + d.toNat)
  else if d < 0 then
    if (-d).toNat ≤ mem then some (mem - (-d).toNat) else none
  else some mem

/-- `WriteHandle::add`: dispatch on the `srmap` flag, stage the deltas on
the backing map and adjust `mem_size` by the returned signed delta. -/
def WriteHandle.add (w : WriteHandle) (rs : List Record) :
    Except Abort WriteHandle :=
  if w.srmap then
    match w.handleSR with
    | some st =>
      let p := addSR w.key w.cols w.uid rs st
      match applyMemDelta w.mem_size p.2 with
      | some m => Except.ok { w with handleSR := some p.1, mem_size := m }
      | none => Except.error Abort.underflow
    | none => Except.ok w
  else
    match w.handle with
    | some st =>
      let p := addEV w.key w.cols rs st
      match applyMemDelta w.mem_size p.2 with
      | some m => Except.ok { w with handle := some p.1, mem_size := m }
      | none => Except.error Abort.underflow
    | none => Except.ok w

/-- `WriteHandle::swap`: publish staged changes on whichever backend is
present. -/
def WriteHandle.swap (w : WriteHandle) : WriteHandle :=
  if w.srmap then { w with handleSR := w.handleSR.map srRefresh }
  else { w with handle := w.handle.map evRefresh }

/-- `WriteHandle::evict_random_key`: when `mem_size > 0`, a non-empty
backing map is required (`unreachable!` otherwise), one pseudo-random key
is evicted and its deep size subtracted with `checked_sub(..).unwrap()`;
otherwise 0 is returned and nothing changes. -/
def WriteHandle.evict_random_key (w : WriteHandle) (n : Nat) :
    Except Abort (WriteHandle × Nat) :=
  if w.srmap then
    match w.handleSR with
    | some st =>
      if 0 < w.mem_size then
        if srIsEmpty st then Except.error Abort.evictEmpty
        else
          let p := srEmptyAtIndex n st
          let bytes := match p.1 with
            | none => 0
            | some vs => sumSizes vs
          if bytes ≤ w.mem_size then
            let w' := { w with handleSR := some p.2, mem_size := w.mem_size - bytes }
            Except.ok (w', bytes)
          else Except.error Abort.underflow
      else Except.ok (w, 0)
    | none => Except.ok (w, 0)
  else
    match w.handle with
    | some st =>
      if 0 < w.mem_size then
        if evIsEmpty st then Except.error Abort.evictEmpty
        else
          let p := evEmptyAtIndex n st
          let bytes := match p.1 with
            | none => 0
            | some vs => sumSizes vs
          if bytes ≤ w.mem_size then
            let w' := { w with handle := some p.2, mem_size := w.mem_size - bytes }
            Except.ok (w', bytes)
          else Except.error Abort.underflow
      else Except.ok (w, 0)
    | none => Except.ok (w, 0)

/-- `SingleReadHandle::try_find_and`: dispatch on the reader's `srmap`
flag and handle presence (the backing states stand in for the reader's
`handle` / `handleSR` fields); `Err(())` when the backend returns `None`;
on a fully materialized view (no trigger) an absent key is answered as
the empty bag. -/
def try_find_and {T : Type} (r : SingleReadHandle) (hSR : Option SRState)
    (hEV : Option EVState) (k : KeyV) (f : List (List DataType) → T) :
    Except Unit (Option T × Int) :=
  if r.srmap then
    match hSR with
    | some st =>
      match srReaderGet st r.uid k f with
      | none => Except.error ()
      | some (records, m) =>
        if records.isNone && !r.trigger then Except.ok (some (f []), m)
        else Except.ok (records, m)
    | none => Except.error ()
  else
    match hEV with
    | some st =>
      match evReaderGet st k f with
      | none => Except.error ()
      | some (records, m) =>
        if records.isNone && !r.trigger then Except.ok (some (f []), m)
        else Except.ok (records, m)
    | none => Except.error ()

/-- The routing shell embedded from the source (enum `ReadHandle`). -/
inductive ReadHandle where
  | Sharded (shards : List (Option SingleReadHandle))
  | Singleton (srh : Option SingleReadHandle)
deriving DecidableEq, Repr

/-- `ReadHandle::set_single_handle`: the `Singleton` arm installs
unconditionally; the `Sharded` arms assert the target slot is empty
(`assert!(srh.is_none())`), the shardless `Sharded` arm additionally
asserts there is exactly one shard; `(Singleton, Some(_))` is
`unreachable!`. Aborting assertions are modelled as `none`. -/
def set_single_handle (rh : ReadHandle) (shard : Option Nat)
    (h : SingleReadHandle) : Option ReadHandle :=
  match rh, shard with
  | ReadHandle.Singleton _, none => some (ReadHandle.Singleton (some h))
  | ReadHandle.Sharded rhs, none =>
    if rhs.length = 1 then
      match rhs.get? 0 with
      | some none => some (ReadHandle.Sharded (rhs.set 0 (some h)))
      | some (some _) => none
      | none => none
    else none
  | ReadHandle.Sharded rhs, some i =>
    match rhs.get? i with
    | some none => some (ReadHandle.Sharded (rhs.set i (some h)))
    | some (some _) => none
    | none => none
  | ReadHandle.Singleton _, some _ => none

/-- `SingleReadHandle::clone_new_user`: a reader bound to the fresh user
id, sharing the backing map and the original trigger. -/
def SingleReadHandle.clone_new_user (r : SingleReadHandle) (uid : Nat) :
    SingleReadHandle :=
  { srmap := true, trigger := r.trigger, key := r.key, uid := uid }

/-- `WriteHandle::clone_new_user`: multi-user only (returns `None` on the
single-user backend); mints a fresh user id from the shared map and
returns a paired reader and writer. Note the source copies `mem_size`
into the new writer. The returned writer's `handleSR` carries the
authoritative shared state (with the fresh-uid counter bumped). -/
def WriteHandle.clone_new_user (w : WriteHandle) (r : SingleReadHandle) :
    Option (SingleReadHandle × WriteHandle) :=
  if w.srmap then
    match w.handleSR with
    | some st =>
      let p := srCloneNewUser st
      some (r.clone_new_user p.1,
            { handle := none, handleSR := some p.2, srmap := true,
              pflag := w.pflag, cols := w.cols, key := w.key,
              contiguous := w.contiguous, mem_size := w.mem_size, uid := p.1 })
    | none => none
  else none

/-- Total deep size of the writer's current (published plus staged)
backing state. -/
def whTotal (w : WriteHandle) : Nat :=
  (match w.handleSR with
   | some st => curTotal st.cur
   | none => 0) +
  (match w.handle with
   | some st => evTotal st.cur
   | none => 0)

/-- One single-writer operation on a `WriteHandle` (the operations of
claim C2 that act through one handle, plus `mark_filled`). -/
inductive WOp where
  | add (rs : List Record)
  | swap
  | markFilled (k : KeyV)
  | markHole (k : KeyV)
  | evict (n : Nat)
deriving DecidableEq, Repr

/-- Whether a single-writer operation is the publication `swap`. -/
def WOp.isSwap : WOp → Bool
  | WOp.swap => true
  | _ => false

/-- Run one single-writer operation. -/
def wExec : WOp → WriteHandle → Except Abort WriteHandle
  | WOp.add rs, w => w.add rs
  | WOp.swap, w => Except.ok w.swap
  | WOp.markFilled k, w => (w.mut_with_key k).mark_filled
  | WOp.markHole k, w => (w.mut_with_key k).mark_hole
  | WOp.evict n, w => (w.evict_random_key n).map (fun p => p.1)

/-- Run a sequence of single-writer operations, stopping at the first
abort. -/
def wExecs : List WOp → WriteHandle → Except Abort WriteHandle
  | [], w => Except.ok w
  | op :: ops, w =>
    match wExec op w with
    | Except.ok w' => wExecs ops w'
    | Except.error e => Except.error e

/-- The accounting property of claim C2 on an execution outcome: an
underflow abort or an eviction-from-empty abort never happens, and on
success the writer's `mem_size` is the total deep size of the current
(published plus staged) state. (The `mark_filled` already-filled abort is
a distinct, accounting-unrelated panic and is allowed.) -/
def memGood : Except Abort WriteHandle → Prop
  | Except.error Abort.underflow => False
  | Except.error Abort.evictEmpty => False
  | Except.error Abort.alreadyFilled => True
  | Except.ok w => w.mem_size = whTotal w

/-- The per-writer configuration carried by the multi-writer system used
for claim C2: the fields of `WriteHandle` that are not the shared backing
map. -/
structure WCfg where
  mem_size : Nat
  uid : Nat
  key : List Nat
  cols : Nat
deriving DecidableEq, Repr

/-- A system of several writers sharing one srmap backing map, as
produced by `clone_new_user`: the shared state is held once, each writer
keeps its own `mem_size` and user id. -/
structure MultiSys where
  sr : SRState
  writers : List WCfg
deriving DecidableEq, Repr

/-- The system right after `new`: one writer with `mem_size = 0` on a
fresh shared map. -/
def msInit (cols : Nat) (key : List Nat) (uid : Nat) : MultiSys :=
  { sr := srConstruct (-1),
    writers := [{ mem_size := 0, uid := uid, key := key, cols := cols }] }

/-- A multi-writer operation: `add` / `swap` through writer `i`, or
`clone_new_user` on writer `i`. -/
inductive MOp where
  | madd (i : Nat) (rs : List Record)
  | mswap (i : Nat)
  | mclone (i : Nat)
deriving DecidableEq, Repr

/-- Run one multi-writer operation; `madd` is `WriteHandle::add` acting
on the shared map and writer `i`'s `mem_size`, `mclone` is
`WriteHandle::clone_new_user` (which copies `mem_size` into the new
writer, source line 303). `none` is an abort. -/
def execM : MOp → MultiSys → Option MultiSys
  | MOp.madd i rs, sys =>
    match sys.writers.get? i with
    | none => none
    | some w =>
      let p := addSR w.key w.cols w.uid rs sys.sr
      match applyMemDelta w.mem_size p.2 with
      | some m =>
        some { sr := p.1, writers := sys.writers.set i { w with mem_size := m } }
      | none => none
  | MOp.mswap _, sys => some { sys with sr := srRefresh sys.sr }
  | MOp.mclone i, sys =>
    match sys.writers.get? i with
    | none => none
    | some w =>
      let p := srCloneNewUser sys.sr
      some { sr := p.2, writers := sys.writers ++ [{ w with uid := p.1 }] }

/-- Run a sequence of multi-writer operations. -/
def execMs : List MOp → MultiSys → Option MultiSys
  | [], sys => some sys
  | op :: ops, sys =>
    match execM op sys with
    | some s => execMs ops s
    | none => none

/-- Total deep size of the current side of a shared map state. -/
def srTotal (st : SRState) : Nat :=
  curTotal st.cur

/-- Spec-side characterization from claim C1: one delta acting on the bag
of key `k` — a Positive whose projection is `k` appends, a Negative whose
projection is `k` removes one matching occurrence, everything else leaves
the bag alone. -/
def specStep (kc : List Nat) (k : KeyV) (B : List (List DataType)) :
    Record → List (List DataType)
  | Record.positive r => if keyOf kc r = k then B ++ [r] else B
  | Record.negative r => if keyOf kc r = k then removeOneL r B else B

/-- Spec-side characterization from claim C1: the multiset of positive
records projected to key `k` minus the negatives that cancel them. -/
def specBagAt (kc : List Nat) (k : KeyV) (ds : List Record) :
    List (List DataType) :=
  ds.foldl (specStep kc k) []

/-- The key's aggregated deep size as `mark_hole` computes it (0 when the
key is absent). -/
def holeSizeAt (st : SRState) (uid : Nat) (k : KeyV) : Nat :=
  ((srWriterPeek st uid k (fun rs => sumSizes rs)).1).getD 0

/-- The deep size of the records `evict_random_key` would evict for
random input `n` (0 when the map is empty). -/
def evictPickSize (st : SRState) (n : Nat) : Nat :=
  match (srEmptyAtIndex n st).1 with
  | none => 0
  | some vs => sumSizes vs

/-- Every stored copy in a bag is tagged with exactly the one writing
user — the invariant maintained by a writer pair fresh from the factory,
on which all records were added through that writer. -/
def allTagsBag (uid : Nat) (bag : List TRec) : Prop :=
  ∀ t ∈ bag, t.2 = [uid]

/-- `allTagsBag` over every entry of the map. -/
def allTags (uid : Nat) (m : List (KeyV × List TRec)) : Prop :=
  ∀ e ∈ m, allTagsBag uid e.2

/-- The bag at key `k` visible to `uid` ( `[]` when the entry is
absent). -/
def visAt (uid : Nat) (m : List (KeyV × List TRec)) (k : KeyV) :
    List (List DataType) :=
  match bagLookup m k with
  | none => []
  | some bag => visibleRecs uid bag

/-- The keys of the map are pairwise distinct — true of every reachable
map state, since a key is inserted only when absent. -/
def keysND (m : List (KeyV × List TRec)) : Prop :=
  (m.map Prod.fst).Nodup

/-- The single-writer invariant: a writer as produced by the factory —
shared-read backend present, single-user backend absent — whose
`mem_size` is the total deep size of the current state, every stored copy
tagged with exactly this writer's user id, and map keys distinct. -/
def SInv (w : WriteHandle) : Prop :=
  w.srmap = true ∧ w.handle = none ∧
  ∃ st, w.handleSR = some st ∧ w.mem_size = srTotal st ∧
    allTags w.uid st.cur ∧ keysND st.cur

/- ### Lemmas about the bag-map primitives -/

theorem bagLookup_eq_none_iff {α : Type} (m : List (KeyV × α)) (k : KeyV) :
    bagLookup m k = none ↔ k ∉ m.map Prod.fst := by
  induction m with
  | nil => simp [bagLookup]
  | cons e rest ih =>
    obtain ⟨k', v⟩ := e
    by_cases h : k' = k
    · subst h
      simp [bagLookup]
    · have h' : ¬k = k' := fun hh => h hh.symm
      simp [bagLookup, h, ih, h']

theorem bagLookup_bagAppend_self (m : List (KeyV × List TRec)) (k : KeyV)
    (t : TRec) :
    bagLookup (bagAppend m k t) k = some ((bagLookup m k).getD [] ++ [t]) := by
  induction m with
  | nil => simp [bagAppend, bagLookup]
  | cons e rest ih =>
    obtain ⟨k', bag⟩ := e
    by_cases h : k' = k
    · subst h
      simp [bagAppend, bagLookup]
    · simp [bagAppend, bagLookup, h, ih]

theorem bagLookup_bagAppend_other (m : List (KeyV × List TRec)) (k k₂ : KeyV)
    (t : TRec) (h : k₂ ≠ k) :
    bagLookup (bagAppend m k t) k₂ = bagLookup m k₂ := by
  have h' : ¬k = k₂ := fun hh => h hh.symm
  induction m with
  | nil => simp [bagAppend, bagLookup, h']
  | cons e rest ih =>
    obtain ⟨k', bag⟩ := e
    by_cases hk : k' = k
    · subst hk
      simp [bagAppend, bagLookup, h']
    · by_cases hk2 : k' = k₂ <;> simp [bagAppend, bagLookup, hk, hk2, ih, h]

theorem bagSet_of_lookup_none (m : List (KeyV × List TRec)) (k : KeyV)
    (b : List TRec) (h : bagLookup m k = none) : bagSet m k b = m := by
  induction m with
  | nil => simp [bagSet]
  | cons e rest ih =>
    obtain ⟨k', bag⟩ := e
    by_cases hk : k' = k
    · simp [bagLookup, hk] at h
    · simp [bagLookup, hk] at h
      simp [bagSet, hk, ih h]

theorem bagLookup_bagSet_self (m : List (KeyV × List TRec)) (k : KeyV)
    (b bag : List TRec) (h : bagLookup m k = some bag) :
    bagLookup (bagSet m k b) k = some b := by
  induction m with
  | nil => simp [bagLookup] at h
  | cons e rest ih =>
    obtain ⟨k', bag'⟩ := e
    by_cases hk : k' = k
    · subst hk
      simp [bagSet, bagLookup]
    · simp [bagLookup, hk] at h
      simp [bagSet, bagLookup, hk, ih h]

theorem bagLookup_bagSet_other (m : List (KeyV × List TRec)) (k k₂ : KeyV)
    (b : List TRec) (h : k₂ ≠ k) :
    bagLookup (bagSet m k b) k₂ = bagLookup m k₂ := by
  have h' : ¬k = k₂ := fun hh => h hh.symm
  induction m with
  | nil => simp [bagSet]
  | cons e rest ih =>
    obtain ⟨k', bag⟩ := e
    by_cases hk : k' = k
    · subst hk
      simp [bagSet, bagLookup, h']
    · by_cases hk2 : k' = k₂ <;> simp [bagSet, bagLookup, hk, hk2, ih, h]

theorem bagLookup_bagRemove_self (m : List (KeyV × List TRec)) (k : KeyV) :
    bagLookup (bagRemove m k) k = none := by
  induction m with
  | nil => simp [bagRemove, bagLookup]
  | cons e rest ih =>
    obtain ⟨k', bag⟩ := e
    by_cases hk : k' = k
    · simp [bagRemove, hk, ih]
    · simp [bagRemove, bagLookup, hk, ih]

theorem bagRemove_of_lookup_none (m : List (KeyV × List TRec)) (k : KeyV)
    (h : bagLookup m k = none) : bagRemove m k = m := by
  induction m with
  | nil => simp [bagRemove]
  | cons e rest ih =>
    obtain ⟨k', bag⟩ := e
    by_cases hk : k' = k
    · simp [bagLookup, hk] at h
    · simp [bagLookup, hk] at h
      simp [bagRemove, hk, ih h]

theorem bagLookup_bagClear_self (m : List (KeyV × List TRec)) (k : KeyV) :
    bagLookup (bagClear m k) k = some [] := by
  induction m with
  | nil => simp [bagClear, bagLookup]
  | cons e rest ih =>
    obtain ⟨k', bag⟩ := e
    by_cases hk : k' = k
    · subst hk
      simp [bagClear, bagLookup]
    · simp [bagClear, bagLookup, hk, ih]

theorem curTotal_append (m₁ m₂ : List (KeyV × List TRec)) :
    curTotal (m₁ ++ m₂) = curTotal m₁ + curTotal m₂ := by
  induction m₁ with
  | nil => simp [curTotal]
  | cons e rest ih =>
    obtain ⟨k', bag⟩ := e
    simp [curTotal, ih]
    omega

theorem bagSize_append (b₁ b₂ : List TRec) :
    bagSize (b₁ ++ b₂) = bagSize b₁ + bagSize b₂ := by
  induction b₁ with
  | nil => simp [bagSize]
  | cons t rest ih =>
    obtain ⟨r, us⟩ := t
    simp [bagSize, ih]
    omega

theorem curTotal_bagAppend (m : List (KeyV × List TRec)) (k : KeyV) (t : TRec) :
    curTotal (bagAppend m k t) = curTotal m + deepSizeOf t.1 := by
  induction m with
  | nil => simp [bagAppend, curTotal, bagSize]
  | cons e rest ih =>
    obtain ⟨k', bag⟩ := e
    by_cases hk : k' = k
    · simp [bagAppend, hk, curTotal, bagSize_append, bagSize]
      omega
    · simp [bagAppend, hk, curTotal, ih]
      omega

theorem curTotal_bagSet (m : List (KeyV × List TRec)) (k : KeyV)
    (b bag : List TRec) (h : bagLookup m k = some bag) :
    curTotal (bagSet m k b) + bagSize bag = curTotal m + bagSize b := by
  induction m with
  | nil => simp [bagLookup] at h
  | cons e rest ih =>
    obtain ⟨k', bag'⟩ := e
    by_cases hk : k' = k
    · subst hk
      simp [bagLookup] at h
      subst h
      simp [bagSet, curTotal]
      omega
    · simp [bagLookup, hk] at h
      simp [bagSet, hk, curTotal]
      have := ih h
      omega

theorem bagLookup_bagRemove_other (m : List (KeyV × List TRec)) (k k₂ : KeyV)
    (h : k₂ ≠ k) : bagLookup (bagRemove m k) k₂ = bagLookup m k₂ := by
  induction m with
  | nil => simp [bagRemove]
  | cons e rest ih =>
    obtain ⟨k', bag⟩ := e
    by_cases hk : k' = k
    · subst hk
      have h' : ¬k' = k₂ := fun hh => h hh.symm
      simp [bagRemove, bagLookup, h', ih]
    · by_cases hk2 : k' = k₂ <;> simp [bagRemove, bagLookup, hk, hk2, ih, h]

theorem curTotal_bagRemove (m : List (KeyV × List TRec)) (k : KeyV)
    (bag : List TRec) (hnd : keysND m) (h : bagLookup m k = some bag) :
    curTotal (bagRemove m k) + bagSize bag = curTotal m := by
  induction m with
  | nil => simp [bagLookup] at h
  | cons e rest ih =>
    obtain ⟨k', bag'⟩ := e
    have hnd' : keysND rest := by
      simpa [keysND, List.nodup_cons] using (List.nodup_cons.mp hnd).2
    by_cases hk : k' = k
    · subst hk
      simp [bagLookup] at h
      subst h
      have hnotin : k' ∉ rest.map Prod.fst := (List.nodup_cons.mp hnd).1
      have hnone : bagLookup rest k' = none :=
        (bagLookup_eq_none_iff rest k').mpr hnotin
      simp [bagRemove, bagRemove_of_lookup_none rest k' hnone, curTotal]
      omega
    · simp [bagLookup, hk] at h
      simp [bagRemove, hk, curTotal]
      have := ih hnd' h
      omega

theorem bagRemove_sublist (m : List (KeyV × List TRec)) (k : KeyV) :
    List.Sublist (bagRemove m k) m := by
  induction m with
  | nil => simp [bagRemove]
  | cons e rest ih =>
    obtain ⟨k', bag⟩ := e
    by_cases hk : k' = k
    · simpa [bagRemove, hk] using ih.cons (k', bag)
    · simpa [bagRemove, hk] using ih.cons₂ (k', bag)

theorem curTotal_eraseIdx (m : List (KeyV × List TRec)) (i : Nat) (k : KeyV)
    (bag : List TRec) (h : m.get? i = some (k, bag)) :
    curTotal (m.eraseIdx i) + bagSize bag = curTotal m := by
  induction m generalizing i with
  | nil => simp at h
  | cons e rest ih =>
    obtain ⟨k', bag'⟩ := e
    cases i with
    | zero =>
      rw [List.get?_cons_zero] at h
      obtain ⟨h1, h2⟩ := Prod.mk.injEq .. ▸ Option.some.inj h
      simp [List.eraseIdx, curTotal, h2]
      omega
    | succ j =>
      rw [List.get?_cons_succ] at h
      simp [List.eraseIdx, curTotal]
      have := ih j h
      omega

theorem map_fst_bagSet (m : List (KeyV × List TRec)) (k : KeyV) (b : List TRec) :
    (bagSet m k b).map Prod.fst = m.map Prod.fst := by
  induction m with
  | nil => simp [bagSet]
  | cons e rest ih =>
    obtain ⟨k', bag⟩ := e
    by_cases hk : k' = k <;> simp [bagSet, hk, ih]

theorem map_fst_bagAppend_some (m : List (KeyV × List TRec)) (k : KeyV)
    (t : TRec) (bag : List TRec) (h : bagLookup m k = some bag) :
    (bagAppend m k t).map Prod.fst = m.map Prod.fst := by
  induction m with
  | nil => simp [bagLookup] at h
  | cons e rest ih =>
    obtain ⟨k', bag'⟩ := e
    by_cases hk : k' = k
    · simp [bagAppend, hk]
    · simp [bagLookup, hk] at h
      simp [bagAppend, hk, ih h]

theorem map_fst_bagAppend_none (m : List (KeyV × List TRec)) (k : KeyV)
    (t : TRec) (h : bagLookup m k = none) :
    (bagAppend m k t).map Prod.fst = m.map Prod.fst ++ [k] := by
  induction m with
  | nil => simp [bagAppend]
  | cons e rest ih =>
    obtain ⟨k', bag'⟩ := e
    by_cases hk : k' = k
    · simp [bagLookup, hk] at h
    · simp [bagLookup, hk] at h
      simp [bagAppend, hk, ih h]

theorem map_fst_bagClear_some (m : List (KeyV × List TRec)) (k : KeyV)
    (bag : List TRec) (h : bagLookup m k = some bag) :
    (bagClear m k).map Prod.fst = m.map Prod.fst := by
  induction m with
  | nil => simp [bagLookup] at h
  | cons e rest ih =>
    obtain ⟨k', bag'⟩ := e
    by_cases hk : k' = k
    · simp [bagClear, hk]
    · simp [bagLookup, hk] at h
      simp [bagClear, hk, ih h]

theorem map_fst_bagClear_none (m : List (KeyV × List TRec)) (k : KeyV)
    (h : bagLookup m k = none) :
    (bagClear m k).map Prod.fst = m.map Prod.fst ++ [k] := by
  induction m with
  | nil => simp [bagClear]
  | cons e rest ih =>
    obtain ⟨k', bag'⟩ := e
    by_cases hk : k' = k
    · simp [bagLookup, hk] at h
    · simp [bagLookup, hk] at h
      simp [bagClear, hk, ih h]

theorem keysND_concat (m : List (KeyV × List TRec)) (k : KeyV)
    (hnd : keysND m) (h : k ∉ m.map Prod.fst)
    (m' : List (KeyV × List TRec))
    (hm : m'.map Prod.fst = m.map Prod.fst ++ [k]) : keysND m' := by
  unfold keysND
  rw [hm]
  refine List.Nodup.append hnd (List.nodup_singleton k) ?_
  intro a ha hb
  simp at hb
  subst hb
  exact h ha

theorem keysND_bagAppend (m : List (KeyV × List TRec)) (k : KeyV) (t : TRec)
    (hnd : keysND m) : keysND (bagAppend m k t) := by
  rcases hcase : bagLookup m k with _ | bag
  · exact keysND_concat m k hnd ((bagLookup_eq_none_iff m k).mp hcase) _
      (map_fst_bagAppend_none m k t hcase)
  · unfold keysND
    rw [map_fst_bagAppend_some m k t bag hcase]
    exact hnd

theorem keysND_bagClear (m : List (KeyV × List TRec)) (k : KeyV)
    (hnd : keysND m) : keysND (bagClear m k) := by
  rcases hcase : bagLookup m k with _ | bag
  · exact keysND_concat m k hnd ((bagLookup_eq_none_iff m k).mp hcase) _
      (map_fst_bagClear_none m k hcase)
  · unfold keysND
    rw [map_fst_bagClear_some m k bag hcase]
    exact hnd

theorem keysND_bagSet (m : List (KeyV × List TRec)) (k : KeyV) (b : List TRec)
    (hnd : keysND m) : keysND (bagSet m k b) := by
  unfold keysND
  rw [map_fst_bagSet]
  exact hnd

theorem keysND_bagRemove (m : List (KeyV × List TRec)) (k : KeyV)
    (hnd : keysND m) : keysND (bagRemove m k) := by
  exact List.Nodup.sublist ((bagRemove_sublist m k).map Prod.fst) hnd

theorem keysND_eraseIdx (m : List (KeyV × List TRec)) (i : Nat)
    (hnd : keysND m) : keysND (m.eraseIdx i) := by
  exact List.Nodup.sublist ((List.eraseIdx_sublist m i).map Prod.fst) hnd

theorem sumSizes_map_fst (bag : List TRec) :
    sumSizes (bag.map Prod.fst) = bagSize bag := by
  induction bag with
  | nil => simp [sumSizes, bagSize]
  | cons t rest ih =>
    obtain ⟨r, us⟩ := t
    simp [sumSizes, bagSize, ih]

theorem visibleRecs_append (uid : Nat) (b₁ b₂ : List TRec) :
    visibleRecs uid (b₁ ++ b₂) = visibleRecs uid b₁ ++ visibleRecs uid b₂ := by
  simp [visibleRecs, List.filterMap_append]

theorem visibleRecs_allTags (uid : Nat) (bag : List TRec)
    (h : allTagsBag uid bag) : visibleRecs uid bag = bag.map Prod.fst := by
  induction bag with
  | nil => simp [visibleRecs]
  | cons t rest ih =>
    obtain ⟨r, us⟩ := t
    have ht : us = [uid] := h (r, us) (by simp)
    have hrest : allTagsBag uid rest := fun t' ht' => h t' (by simp [ht'])
    subst ht
    simp [visibleRecs] at ih ⊢
    exact ih hrest

theorem rft_bagSize (uid : Nat) (r : List DataType) (bag bag' : List TRec)
    (fully : Bool) (h : removeFirstTagged uid r bag = some (bag', fully)) :
    bagSize bag' + (if fully then deepSizeOf r else 0) = bagSize bag := by
  induction bag generalizing bag' fully with
  | nil => simp [removeFirstTagged] at h
  | cons t rest ih =>
    obtain ⟨r', us⟩ := t
    simp only [removeFirstTagged] at h
    split at h
    next hc =>
      split at h
      next =>
        obtain ⟨h1, h2⟩ := Prod.mk.injEq .. ▸ Option.some.inj h
        subst h1
        subst h2
        simp [bagSize, hc.1]
        omega
      next =>
        obtain ⟨h1, h2⟩ := Prod.mk.injEq .. ▸ Option.some.inj h
        subst h1
        subst h2
        simp [bagSize]
    next =>
      rcases hrec : removeFirstTagged uid r rest with _ | p
      · rw [hrec] at h
        simp at h
      · rw [hrec] at h
        obtain ⟨h1, h2⟩ := Prod.mk.injEq .. ▸ Option.some.inj h
        subst h1
        subst h2
        have := ih p.1 p.2 hrec
        simp [bagSize]
        omega

theorem rft_allTags (uid : Nat) (r : List DataType) (bag bag' : List TRec)
    (fully : Bool) (ht : allTagsBag uid bag)
    (h : removeFirstTagged uid r bag = some (bag', fully)) :
    allTagsBag uid bag' ∧ fully = true := by
  induction bag generalizing bag' fully with
  | nil => simp [removeFirstTagged] at h
  | cons t rest ih =>
    obtain ⟨r', us⟩ := t
    have hus : us = [uid] := ht (r', us) (by simp)
    have hrest : allTagsBag uid rest := fun t' ht' => ht t' (by simp [ht'])
    subst hus
    simp only [removeFirstTagged] at h
    split at h
    next hc =>
      rw [if_pos (by simp [List.erase_cons])] at h
      obtain ⟨h1, h2⟩ := Prod.mk.injEq .. ▸ Option.some.inj h
      subst h1
      subst h2
      exact ⟨hrest, rfl⟩
    next hc =>
      rcases hrec : removeFirstTagged uid r rest with _ | p
      · rw [hrec] at h
        simp at h
      · rw [hrec] at h
        obtain ⟨h1, h2⟩ := Prod.mk.injEq .. ▸ Option.some.inj h
        subst h1
        subst h2
        obtain ⟨hp, hb⟩ := ih p.1 p.2 hrest hrec
        refine ⟨?_, hb⟩
        intro t' ht'
        rcases List.mem_cons.mp ht' with h' | h'
        · subst h'
          rfl
        · exact hp t' h'

theorem rft_none_vis (uid : Nat) (r : List DataType) (bag : List TRec)
    (ht : allTagsBag uid bag) (h : removeFirstTagged uid r bag = none) :
    removeOneL r (bag.map Prod.fst) = bag.map Prod.fst := by
  induction bag with
  | nil => simp [removeOneL]
  | cons t rest ih =>
    obtain ⟨r', us⟩ := t
    have hus : us = [uid] := ht (r', us) (by simp)
    have hrest : allTagsBag uid rest := fun t' ht' => ht t' (by simp [ht'])
    subst hus
    simp only [removeFirstTagged] at h
    split at h
    next hc =>
      rw [if_pos (by simp [List.erase_cons])] at h
      simp at h
    next hc =>
      have hc' : ¬r' = r := fun hh => hc ⟨hh, by simp⟩
      rcases hrec : removeFirstTagged uid r rest with _ | p
      · simp [removeOneL, hc', ih hrest hrec]
      · rw [hrec] at h
        simp at h

theorem rft_some_vis (uid : Nat) (r : List DataType) (bag bag' : List TRec)
    (fully : Bool) (ht : allTagsBag uid bag)
    (h : removeFirstTagged uid r bag = some (bag', fully)) :
    bag'.map Prod.fst = removeOneL r (bag.map Prod.fst) := by
  induction bag generalizing bag' fully with
  | nil => simp [removeFirstTagged] at h
  | cons t rest ih =>
    obtain ⟨r', us⟩ := t
    have hus : us = [uid] := ht (r', us) (by simp)
    have hrest : allTagsBag uid rest := fun t' ht' => ht t' (by simp [ht'])
    subst hus
    simp only [removeFirstTagged] at h
    split at h
    next hc =>
      rw [if_pos (by simp [List.erase_cons])] at h
      obtain ⟨h1, _⟩ := Prod.mk.injEq .. ▸ Option.some.inj h
      subst h1
      simp [removeOneL, hc.1]
    next hc =>
      have hc' : ¬r' = r := fun hh => hc ⟨hh, by simp⟩
      rcases hrec : removeFirstTagged uid r rest with _ | p
      · rw [hrec] at h
        simp at h
      · rw [hrec] at h
        obtain ⟨h1, _⟩ := Prod.mk.injEq .. ▸ Option.some.inj h
        subst h1
        simp [removeOneL, hc']
        exact ih p.1 p.2 hrest hrec

theorem allTagsBag_append (uid : Nat) (b₁ b₂ : List TRec)
    (h₁ : allTagsBag uid b₁) (h₂ : allTagsBag uid b₂) :
    allTagsBag uid (b₁ ++ b₂) := by
  intro t ht
  rcases List.mem_append.mp ht with h | h
  · exact h₁ t h
  · exact h₂ t h

theorem allTags_lookup (uid : Nat) (m : List (KeyV × List TRec)) (k : KeyV)
    (bag : List TRec) (ht : allTags uid m) (h : bagLookup m k = some bag) :
    allTagsBag uid bag := by
  induction m with
  | nil => simp [bagLookup] at h
  | cons e rest ih =>
    obtain ⟨k', bag'⟩ := e
    by_cases hk : k' = k
    · simp [bagLookup, hk] at h
      subst h
      exact ht (k', bag') (by simp)
    · simp [bagLookup, hk] at h
      exact ih (fun e he => ht e (by simp [he])) h

theorem allTags_bagAppend (uid : Nat) (m : List (KeyV × List TRec)) (k : KeyV)
    (r : List DataType) (ht : allTags uid m) :
    allTags uid (bagAppend m k (r, [uid])) := by
  induction m with
  | nil =>
    intro e he
    simp [bagAppend] at he
    subst he
    intro t hmem
    simp at hmem
    simp [hmem]
  | cons e₀ rest ih =>
    obtain ⟨k', bag⟩ := e₀
    by_cases hk : k' = k
    · intro e he
      simp [bagAppend, hk] at he
      rcases he with he | he
      · subst he
        refine allTagsBag_append uid bag [(r, [uid])]
          (ht (k', bag) (by simp)) ?_
        intro t hmem
        simp at hmem
        simp [hmem]
      · exact ht e (by simp [he])
    · intro e he
      simp [bagAppend, hk] at he
      rcases he with he | he
      · subst he
        exact ht (k', bag) (by simp)
      · exact ih (fun e' he' => ht e' (by simp [he'])) e he

theorem allTags_bagSet (uid : Nat) (m : List (KeyV × List TRec)) (k : KeyV)
    (b : List TRec) (ht : allTags uid m) (hb : allTagsBag uid b) :
    allTags uid (bagSet m k b) := by
  induction m with
  | nil => intro e he; simp [bagSet] at he
  | cons e₀ rest ih =>
    obtain ⟨k', bag⟩ := e₀
    by_cases hk : k' = k
    · intro e he
      simp [bagSet, hk] at he
      rcases he with he | he
      · subst he
        exact hb
      · exact ht e (by simp [he])
    · intro e he
      simp [bagSet, hk] at he
      rcases he with he | he
      · subst he
        exact ht (k', bag) (by simp)
      · exact ih (fun e' he' => ht e' (by simp [he'])) e he

theorem allTags_bagClear (uid : Nat) (m : List (KeyV × List TRec)) (k : KeyV)
    (ht : allTags uid m) : allTags uid (bagClear m k) := by
  induction m with
  | nil =>
    intro e he
    simp [bagClear] at he
    subst he
    intro t hmem
    simp at hmem
  | cons e₀ rest ih =>
    obtain ⟨k', bag⟩ := e₀
    by_cases hk : k' = k
    · intro e he
      simp [bagClear, hk] at he
      rcases he with he | he
      · subst he
        intro t hmem
        simp at hmem
      · exact ht e (by simp [he])
    · intro e he
      simp [bagClear, hk] at he
      rcases he with he | he
      · subst he
        exact ht (k', bag) (by simp)
      · exact ih (fun e' he' => ht e' (by simp [he'])) e he

theorem allTags_bagRemove (uid : Nat) (m : List (KeyV × List TRec)) (k : KeyV)
    (ht : allTags uid m) : allTags uid (bagRemove m k) :=
  fun e he => ht e ((bagRemove_sublist m k).subset he)

theorem allTags_eraseIdx (uid : Nat) (m : List (KeyV × List TRec)) (i : Nat)
    (ht : allTags uid m) : allTags uid (m.eraseIdx i) :=
  fun e he => ht e ((List.eraseIdx_sublist m i).subset he)

theorem applyDeltaSR_inv (kc : List Nat) (uid : Nat)
    (cur : List (KeyV × List TRec)) (acc : Int) (rec : Record)
    (ht : allTags uid cur) (hnd : keysND cur) :
    ((curTotal (applyDeltaSR kc uid (cur, acc) rec).1 : Int)
        - (applyDeltaSR kc uid (cur, acc) rec).2
      = (curTotal cur : Int) - acc)
    ∧ allTags uid (applyDeltaSR kc uid (cur, acc) rec).1
    ∧ keysND (applyDeltaSR kc uid (cur, acc) rec).1 := by
  cases rec with
  | positive r =>
    simp only [applyDeltaSR]
    refine ⟨?_, allTags_bagAppend uid cur (keyOf kc r) r ht,
      keysND_bagAppend cur (keyOf kc r) (r, [uid]) hnd⟩
    rw [curTotal_bagAppend]
    push_cast
    ring
  | negative r =>
    simp only [applyDeltaSR]
    split
    · exact ⟨by ring, ht, hnd⟩
    next bag hlk =>
      have hbag : allTagsBag uid bag := allTags_lookup uid cur _ bag ht hlk
      split
      · exact ⟨by ring, ht, hnd⟩
      next bag' fully hrft =>
        have h1 := curTotal_bagSet cur (keyOf kc r) bag' bag hlk
        have h2 := rft_bagSize uid r bag bag' fully hrft
        have h3 := rft_allTags uid r bag bag' fully hbag hrft
        refine ⟨?_, allTags_bagSet uid cur _ bag' ht h3.1,
          keysND_bagSet cur _ bag' hnd⟩
        cases fully
        · simp only [if_neg Bool.false_ne_true] at h2 ⊢
          omega
        · simp only [eq_self_iff_true, if_true] at h2 ⊢
          omega

theorem foldDeltaSR_inv (kc : List Nat) (uid : Nat) (rs : List Record) :
    ∀ (cur : List (KeyV × List TRec)) (acc : Int),
      allTags uid cur → keysND cur →
      ((curTotal (rs.foldl (applyDeltaSR kc uid) (cur, acc)).1 : Int)
          - (rs.foldl (applyDeltaSR kc uid) (cur, acc)).2
        = (curTotal cur : Int) - acc)
      ∧ allTags uid (rs.foldl (applyDeltaSR kc uid) (cur, acc)).1
      ∧ keysND (rs.foldl (applyDeltaSR kc uid) (cur, acc)).1 := by
  induction rs with
  | nil =>
    intro cur acc ht hnd
    exact ⟨rfl, ht, hnd⟩
  | cons rec rest ih =>
    intro cur acc ht hnd
    obtain ⟨h1, h2, h3⟩ := applyDeltaSR_inv kc uid cur acc rec ht hnd
    obtain ⟨h4, h5, h6⟩ := ih (applyDeltaSR kc uid (cur, acc) rec).1
      (applyDeltaSR kc uid (cur, acc) rec).2 h2 h3
    rw [List.foldl_cons]
    exact ⟨by rw [h4]; exact h1, h5, h6⟩

theorem applyDeltaSR_allTags (kc : List Nat) (uid : Nat)
    (cur : List (KeyV × List TRec)) (acc : Int) (rec : Record)
    (ht : allTags uid cur) :
    allTags uid (applyDeltaSR kc uid (cur, acc) rec).1 := by
  cases rec with
  | positive r =>
    simp only [applyDeltaSR]
    exact allTags_bagAppend uid cur (keyOf kc r) r ht
  | negative r =>
    simp only [applyDeltaSR]
    split
    · exact ht
    next bag hlk =>
      have hbag : allTagsBag uid bag := allTags_lookup uid cur _ bag ht hlk
      split
      · exact ht
      next bag' fully hrft =>
        exact allTags_bagSet uid cur _ bag' ht
          (rft_allTags uid r bag bag' fully hbag hrft).1

theorem visAt_eq_of_lookup (uid : Nat) (m : List (KeyV × List TRec)) (k : KeyV)
    (bag : List TRec) (h : bagLookup m k = some bag) :
    visAt uid m k = visibleRecs uid bag := by
  unfold visAt
  rw [h]

theorem visAt_eq_none (uid : Nat) (m : List (KeyV × List TRec)) (k : KeyV)
    (h : bagLookup m k = none) : visAt uid m k = [] := by
  unfold visAt
  rw [h]

theorem applyDeltaSR_vis (kc : List Nat) (uid : Nat)
    (cur : List (KeyV × List TRec)) (acc : Int) (rec : Record) (k : KeyV)
    (ht : allTags uid cur) :
    visAt uid (applyDeltaSR kc uid (cur, acc) rec).1 k
      = specStep kc k (visAt uid cur k) rec := by
  cases rec with
  | positive r =>
    simp only [applyDeltaSR, specStep]
    by_cases hk : keyOf kc r = k
    · rw [if_pos hk, hk]
      rw [visAt_eq_of_lookup uid _ k _ (bagLookup_bagAppend_self cur k (r, [uid]))]
      rcases hlk : bagLookup cur k with _ | bag
      · rw [visAt_eq_none uid cur k hlk]
        simp [visibleRecs]
      · rw [visAt_eq_of_lookup uid cur k bag hlk]
        simp [visibleRecs_append, visibleRecs]
    · rw [if_neg hk]
      unfold visAt
      rw [bagLookup_bagAppend_other cur (keyOf kc r) k (r, [uid])
        (fun hh => hk hh.symm)]
  | negative r =>
    simp only [applyDeltaSR, specStep]
    by_cases hk : keyOf kc r = k
    · rw [if_pos hk]
      split
      next hlk =>
        rw [hk] at hlk
        rw [visAt_eq_none uid cur k hlk]
        simp [removeOneL]
      next bag hlk =>
        have hbag : allTagsBag uid bag := allTags_lookup uid cur _ bag ht hlk
        rw [hk] at hlk
        split
        next hrft =>
          rw [visAt_eq_of_lookup uid cur k bag hlk]
          rw [visibleRecs_allTags uid bag hbag]
          exact (rft_none_vis uid r bag hbag hrft).symm
        next bag' fully hrft =>
          rw [hk]
          rw [visAt_eq_of_lookup uid _ k bag'
            (bagLookup_bagSet_self cur k bag' bag hlk)]
          rw [visAt_eq_of_lookup uid cur k bag hlk]
          rw [visibleRecs_allTags uid bag hbag,
            visibleRecs_allTags uid bag' (rft_allTags uid r bag bag' fully hbag hrft).1]
          exact rft_some_vis uid r bag bag' fully hbag hrft
    · rw [if_neg hk]
      split
      next hlk => rfl
      next bag hlk =>
        split
        next hrft => rfl
        next bag' fully hrft =>
          unfold visAt
          rw [bagLookup_bagSet_other cur (keyOf kc r) k bag'
            (fun hh => hk hh.symm)]

theorem foldDeltaSR_vis (kc : List Nat) (uid : Nat) (rs : List Record) :
    ∀ (cur : List (KeyV × List TRec)) (acc : Int) (k : KeyV),
      allTags uid cur →
      visAt uid (rs.foldl (applyDeltaSR kc uid) (cur, acc)).1 k
        = rs.foldl (specStep kc k) (visAt uid cur k) := by
  induction rs with
  | nil => intro cur acc k ht; rfl
  | cons rec rest ih =>
    intro cur acc k ht
    have hstep := applyDeltaSR_vis kc uid cur acc rec k ht
    have htags := applyDeltaSR_allTags kc uid cur acc rec ht
    rw [List.foldl_cons, List.foldl_cons,
      ih (applyDeltaSR kc uid (cur, acc) rec).1
        (applyDeltaSR kc uid (cur, acc) rec).2 k htags, hstep]

theorem curTotal_bagClear_none (m : List (KeyV × List TRec)) (k : KeyV)
    (h : bagLookup m k = none) : curTotal (bagClear m k) = curTotal m := by
  induction m with
  | nil => simp [bagClear, curTotal, bagSize]
  | cons e rest ih =>
    obtain ⟨k', bag⟩ := e
    by_cases hk : k' = k
    · simp [bagLookup, hk] at h
    · simp [bagLookup, hk] at h
      simp [bagClear, hk, curTotal, ih h]

theorem bagSize_le_curTotal (m : List (KeyV × List TRec)) (k : KeyV)
    (bag : List TRec) (h : bagLookup m k = some bag) :
    bagSize bag ≤ curTotal m := by
  induction m with
  | nil => simp [bagLookup] at h
  | cons e rest ih =>
    obtain ⟨k', bag'⟩ := e
    by_cases hk : k' = k
    · simp [bagLookup, hk] at h
      subst h
      simp [curTotal]
    · simp [bagLookup, hk] at h
      simp [curTotal]
      have := ih h
      omega

theorem curTotal_nil_of_eq_zero (m : List (KeyV × List TRec))
    (h : m = []) : curTotal m = 0 := by
  subst h
  rfl

theorem applyMemDelta_total (mem : Nat) (d : Int) (t' : Nat)
    (h : (t' : Int) = (mem : Int) + d) : applyMemDelta mem d = some t' := by
  unfold applyMemDelta
  by_cases h1 : 0 < d
  · rw [if_pos h1]
    congr 1
    omega
  · rw [if_neg h1]
    by_cases h2 : d < 0
    · rw [if_pos h2, if_pos (by omega)]
      congr 1
      omega
    · rw [if_neg h2]
      congr 1
      omega

theorem srEmptyAtIndex_spec (n : Nat) (st : SRState) (h : st.cur ≠ []) :
    ∃ k bag, st.cur.get? (n % st.cur.length) = some (k, bag) ∧
      srEmptyAtIndex n st
        = (some (bag.map Prod.fst),
           { st with cur := st.cur.eraseIdx (n % st.cur.length) }) := by
  obtain ⟨pub, cur, rfr, mt, nu⟩ := st
  simp only at h ⊢
  cases cur with
  | nil => exact absurd rfl h
  | cons e rest =>
    have hlen : n % (e :: rest).length < (e :: rest).length :=
      Nat.mod_lt n (by simp)
    have hget : (e :: rest).get? (n % (e :: rest).length) =
        some ((e :: rest).get ⟨n % (e :: rest).length, hlen⟩) :=
      List.get?_eq_get hlen
    rcases hgp : (e :: rest).get ⟨n % (e :: rest).length, hlen⟩ with ⟨k, bag⟩
    rw [hgp] at hget
    refine ⟨k, bag, hget, ?_⟩
    unfold srEmptyAtIndex
    simp only [hget]

theorem wExec_step (op : WOp) (w : WriteHandle) (h : SInv w) :
    wExec op w ≠ Except.error Abort.underflow ∧
    wExec op w ≠ Except.error Abort.evictEmpty ∧
    ∀ w', wExec op w = Except.ok w' → SInv w' := by
  obtain ⟨hs, hh, st, hsr, hm, ht, hnd⟩ := h
  cases op with
  | add rs =>
    simp only [wExec, WriteHandle.add, hs, if_true, hsr]
    have hfold := foldDeltaSR_inv w.key w.uid rs st.cur 0 ht hnd
    have hmem : applyMemDelta w.mem_size
        (rs.foldl (applyDeltaSR w.key w.uid) (st.cur, 0)).2
        = some (curTotal (rs.foldl (applyDeltaSR w.key w.uid) (st.cur, 0)).1) := by
      apply applyMemDelta_total
      have := hfold.1
      rw [hm]
      unfold srTotal
      omega
    simp only [addSR, hmem]
    refine ⟨by simp, by simp, ?_⟩
    intro w' hok
    obtain hok := Except.ok.inj hok
    subst hok
    exact ⟨rfl, hh, _, rfl, rfl, hfold.2.1, hfold.2.2⟩
  | swap =>
    simp only [wExec]
    refine ⟨by simp, by simp, ?_⟩
    intro w' hok
    obtain hok := Except.ok.inj hok
    subst hok
    unfold WriteHandle.swap
    rw [hs, if_pos rfl, hsr]
    exact ⟨rfl, hh, srRefresh st, rfl, hm, ht, hnd⟩
  | markFilled k =>
    simp only [wExec, MutWriteHandleEntry.mark_filled, WriteHandle.mut_with_key,
      hsr]
    rcases hlk : bagLookup st.cur k with _ | bag
    · simp only [srWriterPeek, hlk, Option.map_none']
      refine ⟨by simp, by simp, ?_⟩
      intro w' hok
      obtain hok := Except.ok.inj hok
      subst hok
      refine ⟨hs, hh, srClear k st, rfl, ?_, allTags_bagClear w.uid st.cur k ht,
        keysND_bagClear st.cur k hnd⟩
      rw [hm]
      unfold srTotal srClear
      simp [curTotal_bagClear_none st.cur k hlk]
    · simp only [srWriterPeek, hlk, Option.map_some']
      exact ⟨by simp, by simp, by intro w' hok; simp at hok⟩
  | markHole k =>
    simp only [wExec, MutWriteHandleEntry.mark_hole, WriteHandle.mut_with_key,
      hsr]
    rcases hlk : bagLookup st.cur k with _ | bag
    · simp only [srWriterPeek, hlk, Option.map_none', Option.getD_none]
      rw [if_pos (Nat.zero_le _)]
      refine ⟨by simp, by simp, ?_⟩
      intro w' hok
      obtain hok := Except.ok.inj hok
      subst hok
      refine ⟨hs, hh, srEmpty k st, rfl, ?_, allTags_bagRemove w.uid st.cur k ht,
        keysND_bagRemove st.cur k hnd⟩
      unfold srTotal srEmpty
      rw [bagRemove_of_lookup_none st.cur k hlk]
      simp [hm, srTotal]
    · have hbag : allTagsBag w.uid bag := allTags_lookup w.uid st.cur k bag ht hlk
      have hsz : sumSizes (visibleRecs w.uid bag) = bagSize bag := by
        rw [visibleRecs_allTags w.uid bag hbag, sumSizes_map_fst]
      have hle : bagSize bag ≤ w.mem_size := by
        rw [hm]
        exact bagSize_le_curTotal st.cur k bag hlk
      simp only [srWriterPeek, hlk, Option.map_some', Option.getD_some, hsz]
      rw [if_pos hle]
      refine ⟨by simp, by simp, ?_⟩
      intro w' hok
      obtain hok := Except.ok.inj hok
      subst hok
      refine ⟨hs, hh, srEmpty k st, rfl, ?_, allTags_bagRemove w.uid st.cur k ht,
        keysND_bagRemove st.cur k hnd⟩
      unfold srTotal srEmpty
      have := curTotal_bagRemove st.cur k bag hnd hlk
      simp only [hm]
      unfold srTotal
      omega
  | evict n =>
    simp only [wExec, WriteHandle.evict_random_key, hs, if_true, hsr]
    by_cases hmem : 0 < w.mem_size
    · rw [if_pos hmem]
      have hne : st.cur ≠ [] := by
        intro hnil
        rw [hm] at hmem
        unfold srTotal at hmem
        rw [curTotal_nil_of_eq_zero st.cur hnil] at hmem
        exact Nat.lt_irrefl 0 hmem
      have hemp : srIsEmpty st = false := by
        unfold srIsEmpty
        cases hcur : st.cur with
        | nil => exact absurd hcur hne
        | cons e rest => simp
      rw [hemp]
      simp only [Bool.false_eq_true, if_false]
      obtain ⟨k, bag, hget, heq⟩ := srEmptyAtIndex_spec n st hne
      rw [heq]
      have hsz : sumSizes (bag.map Prod.fst) = bagSize bag := sumSizes_map_fst bag
      have hctErase := curTotal_eraseIdx st.cur (n % st.cur.length) k bag hget
      have hle : bagSize bag ≤ w.mem_size := by
        rw [hm]
        unfold srTotal
        omega
      simp only [hsz]
      rw [if_pos hle]
      simp only [Except.map]
      refine ⟨by simp, by simp, ?_⟩
      intro w' hok
      obtain hok := Except.ok.inj hok
      subst hok
      refine ⟨rfl, hh, _, rfl, ?_,
        allTags_eraseIdx w.uid st.cur (n % st.cur.length) ht,
        keysND_eraseIdx st.cur (n % st.cur.length) hnd⟩
      unfold srTotal at hm ⊢
      dsimp only
      omega
    · rw [if_neg hmem]
      simp only [Except.map]
      refine ⟨by simp, by simp, ?_⟩
      intro w' hok
      obtain hok := Except.ok.inj hok
      subst hok
      exact ⟨hs, hh, st, hsr, hm, ht, hnd⟩

theorem wExecs_memGood (ops : List WOp) :
    ∀ (w : WriteHandle), SInv w → memGood (wExecs ops w) := by
  induction ops with
  | nil =>
    intro w h
    obtain ⟨hs, hh, st, hsr, hm, _, _⟩ := h
    simp only [wExecs, memGood, whTotal, hsr, hh, hm, srTotal]
    omega
  | cons op ops ih =>
    intro w h
    obtain ⟨h1, h2, h3⟩ := wExec_step op w h
    simp only [wExecs]
    rcases hop : wExec op w with e | w'
    · cases e
      · exact True.intro
      · exact absurd hop h1
      · exact absurd hop h2
    · exact ih w' (h3 w' hop)

theorem srEmptyAtIndex_frame (n : Nat) (st : SRState) :
    (srEmptyAtIndex n st).2.refreshed = st.refreshed ∧
    (srEmptyAtIndex n st).2.meta = st.meta := by
  obtain ⟨pub, cur, rfr, mt, nu⟩ := st
  cases cur with
  | nil => exact ⟨rfl, rfl⟩
  | cons e rest =>
    cases hget : (e :: rest)[n % (rest.length + 1)]? with
    | none => simp [srEmptyAtIndex, hget]
    | some p =>
      obtain ⟨k, bag⟩ := p
      simp [srEmptyAtIndex, hget]

theorem wExec_shape (op : WOp) (w : WriteHandle) (st : SRState)
    (hs : w.srmap = true) (hsr : w.handleSR = some st) (w' : WriteHandle)
    (hok : wExec op w = Except.ok w') :
    ∃ st', w'.handleSR = some st' ∧ w'.srmap = true ∧ w'.handle = w.handle ∧
      st'.refreshed = (st.refreshed || WOp.isSwap op) ∧
      st'.meta = st.meta := by
  cases op with
  | add rs =>
    simp only [wExec, WriteHandle.add, hs, if_true, hsr] at hok
    split at hok
    · obtain hok := Except.ok.inj hok
      subst hok
      exact ⟨_, rfl, rfl, rfl, by simp [WOp.isSwap, addSR], rfl⟩
    · exact absurd hok (by simp)
  | swap =>
    simp only [wExec] at hok
    obtain hok := Except.ok.inj hok
    subst hok
    unfold WriteHandle.swap
    rw [hs, if_pos rfl, hsr]
    exact ⟨srRefresh st, rfl, rfl, rfl, by simp [WOp.isSwap, srRefresh], rfl⟩
  | markFilled k =>
    simp only [wExec, MutWriteHandleEntry.mark_filled, WriteHandle.mut_with_key,
      hsr] at hok
    split at hok
    · obtain hok := Except.ok.inj hok
      subst hok
      exact ⟨srClear k st, rfl, hs, rfl, by simp [WOp.isSwap, srClear], rfl⟩
    · exact absurd hok (by simp)
  | markHole k =>
    simp only [wExec, MutWriteHandleEntry.mark_hole, WriteHandle.mut_with_key,
      hsr] at hok
    split at hok
    · obtain hok := Except.ok.inj hok
      subst hok
      exact ⟨srEmpty k st, rfl, hs, rfl, by simp [WOp.isSwap, srEmpty], rfl⟩
    · exact absurd hok (by simp)
  | evict n =>
    simp only [wExec, WriteHandle.evict_random_key, hs, if_true, hsr] at hok
    split at hok
    · split at hok
      · simp [Except.map] at hok
      · split at hok
        · simp only [Except.map] at hok
          obtain hok := Except.ok.inj hok
          subst hok
          refine ⟨(srEmptyAtIndex n st).2, rfl, rfl, rfl, ?_, ?_⟩
          · rw [(srEmptyAtIndex_frame n st).1]
            simp [WOp.isSwap]
          · exact (srEmptyAtIndex_frame n st).2
        · simp [Except.map] at hok
    · simp only [Except.map] at hok
      obtain hok := Except.ok.inj hok
      subst hok
      exact ⟨st, hsr, hs, rfl, by simp [WOp.isSwap], rfl⟩

theorem wExecs_shape (ops : List WOp) :
    ∀ (w : WriteHandle) (st : SRState), w.srmap = true → w.handleSR = some st →
      ∀ w', wExecs ops w = Except.ok w' →
      ∃ st', w'.handleSR = some st' ∧ w'.srmap = true ∧ w'.handle = w.handle ∧
        st'.refreshed = (st.refreshed || ops.any WOp.isSwap) ∧
        st'.meta = st.meta := by
  induction ops with
  | nil =>
    intro w st hs hsr w' hok
    obtain hok := Except.ok.inj hok
    subst hok
    exact ⟨st, hsr, hs, rfl, by simp, rfl⟩
  | cons op ops ih =>
    intro w st hs hsr w' hok
    simp only [wExecs] at hok
    rcases hop : wExec op w with e | w₁
    · rw [hop] at hok
      simp at hok
    · rw [hop] at hok
      obtain ⟨st₁, hsr₁, hs₁, hh₁, hrf₁, hmt₁⟩ := wExec_shape op w st hs hsr w₁ hop
      obtain ⟨st', hsr', hs', hh', hrf', hmt'⟩ := ih w₁ st₁ hs₁ hsr₁ w' hok
      refine ⟨st', hsr', hs', ?_, ?_, ?_⟩
      · rw [hh', hh₁]
      · rw [hrf', hrf₁]
        simp [Bool.or_assoc]
      · rw [hmt', hmt₁]

theorem whAdd_ok (w : WriteHandle) (st : SRState) (rs : List Record)
    (hs : w.srmap = true) (hsr : w.handleSR = some st)
    (hm : w.mem_size = srTotal st) (ht : allTags w.uid st.cur)
    (hnd : keysND st.cur) :
    WriteHandle.add w rs = Except.ok { w with
      handleSR := some ((addSR w.key w.cols w.uid rs st).1),
      mem_size := curTotal (rs.foldl (applyDeltaSR w.key w.uid) (st.cur, 0)).1 } := by
  have hfold := foldDeltaSR_inv w.key w.uid rs st.cur 0 ht hnd
  have hmem : applyMemDelta w.mem_size
      (rs.foldl (applyDeltaSR w.key w.uid) (st.cur, 0)).2
      = some (curTotal (rs.foldl (applyDeltaSR w.key w.uid) (st.cur, 0)).1) := by
    apply applyMemDelta_total
    have := hfold.1
    rw [hm]
    unfold srTotal
    omega
  simp only [WriteHandle.add, hs, if_true, hsr, addSR, hmem]

theorem wExecs_adds (kc : List Nat) (cols uid : Nat)
    (batches : List (List Record)) :
    ∀ (w : WriteHandle) (st : SRState),
      w.srmap = true → w.handle = none → w.handleSR = some st →
      w.key = kc → w.cols = cols → w.uid = uid →
      w.mem_size = srTotal st → allTags uid st.cur → keysND st.cur →
      ∃ w' st', wExecs (batches.map WOp.add) w = Except.ok w' ∧
        w'.handleSR = some st' ∧ w'.srmap = true ∧ w'.handle = none ∧
        w'.uid = uid ∧
        st'.published = st.published ∧ st'.refreshed = st.refreshed ∧
        st'.meta = st.meta ∧
        (∀ k, visAt uid st'.cur k
          = (batches.flatten).foldl (specStep kc k) (visAt uid st.cur k)) := by
  induction batches with
  | nil =>
    intro w st hs hh hsr hk hc hu hm ht hnd
    refine ⟨w, st, rfl, hsr, hs, hh, hu, rfl, rfl, rfl, fun k => ?_⟩
    simp [List.flatten]
  | cons rs rest ih =>
    intro w st hs hh hsr hk hc hu hm ht hnd
    subst hk
    subst hc
    subst hu
    have hfold := foldDeltaSR_inv w.key w.uid rs st.cur 0 ht hnd
    have hadd := whAdd_ok w st rs hs hsr hm ht hnd
    obtain ⟨w', st', hexec, hsr', hs', hh', hu', hpub, hrf, hmt, hvis⟩ :=
      ih { w with
             handleSR := some ((addSR w.key w.cols w.uid rs st).1),
             mem_size := curTotal (rs.foldl (applyDeltaSR w.key w.uid) (st.cur, 0)).1 }
        ((addSR w.key w.cols w.uid rs st).1)
        hs hh rfl rfl rfl rfl rfl hfold.2.1 hfold.2.2
    refine ⟨w', st', ?_, hsr', hs', hh', hu', hpub, hrf, hmt, fun k => ?_⟩
    · simp only [List.map_cons, wExecs, wExec, hadd]
      exact hexec
    · rw [hvis k]
      have hv1 : visAt w.uid ((addSR w.key w.cols w.uid rs st).1).cur k
          = rs.foldl (specStep w.key k) (visAt w.uid st.cur k) :=
        foldDeltaSR_vis w.key w.uid rs st.cur 0 k ht
      rw [hv1, show ((rs :: rest).flatten) = rs ++ rest.flatten from rfl,
        List.foldl_append]

theorem isSwap_eq_true_iff (op : WOp) : WOp.isSwap op = true ↔ op = WOp.swap := by
  cases op <;> simp [WOp.isSwap]

theorem swap_mem_iff_any (ops : List WOp) :
    WOp.swap ∈ ops ↔ ops.any WOp.isSwap = true := by
  rw [List.any_eq_true]
  constructor
  · intro h
    exact ⟨WOp.swap, h, rfl⟩
  · intro ⟨op, hmem, hsw⟩
    rw [(isSwap_eq_true_iff op).mp hsw] at hmem
    exact hmem

theorem wExecs_append (l₁ l₂ : List WOp) :
    ∀ w : WriteHandle, wExecs (l₁ ++ l₂) w
      = match wExecs l₁ w with
        | Except.ok w₁ => wExecs l₂ w₁
        | Except.error e => Except.error e := by
  induction l₁ with
  | nil => intro w; rfl
  | cons op rest ih =>
    intro w
    simp only [List.cons_append, wExecs]
    cases wExec op w
    · rfl
    · exact ih _

/- ### The claims -/

/-- C3 counterexample: calling the factory with `srmap = false` still
allocates the multi-user (shared-read) backend — the writer comes back
with `handleSR` present and `handle` absent and its `srmap` flag forced
to true — so "when srmap is false the single-user backend is selected"
is false on the code. -/
theorem c3_counterexample :
    (new_inner false 2 [0] false 0).map
        (fun p => (p.2.handleSR.isSome, p.2.handle.isSome, p.2.srmap))
      = some (true, false, true) := by
  rfl

/-- C3 (amended): for every call to the allocation factory with a
non-empty key, the multi-user (srmap) backend is selected regardless of
the caller's `srmap` argument — the source shadows the argument with
`let mut srmap = true;` — so the single-user backend is never selected. -/
theorem c3_always_multiuser (b : Bool) (cols : Nat) (kc : List Nat)
    (tr : Bool) (uid : Nat) (hkc : kc ≠ []) :
    (new_inner b cols kc tr uid).map
        (fun p => (p.2.handleSR.isSome, p.2.handle.isSome, p.2.srmap, p.1.srmap))
      = some (true, false, true, true) := by
  cases kc with
  | nil => exact absurd rfl hkc
  | cons a rest => rfl

/-- Witness for C3's amended theorem at a concrete input. -/
theorem c3_always_multiuser_witness :
    (new_inner true 2 [0] false 0).map
        (fun p => (p.2.handleSR.isSome, p.2.handle.isSome, p.2.srmap, p.1.srmap))
      = some (true, false, true, true) :=
  c3_always_multiuser true 2 [0] false 0 (by decide)

/-- C9 counterexample: installing a handle into a `Singleton` routing
shell whose slot is already occupied does not abort — the claim says the
target slot must be asserted empty for the Singleton shape as well — it
silently replaces the existing handle. -/
theorem c9_counterexample :
    set_single_handle
        (ReadHandle.Singleton
          (some { srmap := true, trigger := false, key := [0], uid := 0 }))
        none
        { srmap := true, trigger := false, key := [0], uid := 1 }
      = some (ReadHandle.Singleton
          (some { srmap := true, trigger := false, key := [0], uid := 1 })) := by
  rfl

/-- C9 (amended): `set_single_handle` asserts that the target slot is
empty only for `Sharded` slots (installing into an occupied Sharded slot
aborts, an empty one is filled); the `Singleton` shape installs
unconditionally, replacing any existing handle. -/
theorem c9_set_single_handle_spec (prev : Option SingleReadHandle)
    (h : SingleReadHandle) (rhs : List (Option SingleReadHandle)) (i : Nat)
    (x : SingleReadHandle) :
    (set_single_handle (ReadHandle.Singleton prev) none h
      = some (ReadHandle.Singleton (some h))) ∧
    (rhs.get? i = some none →
      set_single_handle (ReadHandle.Sharded rhs) (some i) h
        = some (ReadHandle.Sharded (rhs.set i (some h)))) ∧
    (rhs.get? i = some (some x) →
      set_single_handle (ReadHandle.Sharded rhs) (some i) h = none) ∧
    (rhs.length = 1 → rhs.get? 0 = some (some x) →
      set_single_handle (ReadHandle.Sharded rhs) none h = none) := by
  refine ⟨rfl, ?_, ?_, ?_⟩
  · intro hg
    simp only [set_single_handle, hg]
  · intro hg
    simp only [set_single_handle, hg]
  · intro hl hg
    simp only [set_single_handle, hl, if_pos, hg]

/-- Witness for C9's amended theorem at concrete inputs. -/
theorem c9_set_single_handle_spec_witness :
    (set_single_handle
        (ReadHandle.Singleton
          (some { srmap := true, trigger := false, key := [0], uid := 0 }))
        none { srmap := true, trigger := false, key := [0], uid := 1 }
      = some (ReadHandle.Singleton
          (some { srmap := true, trigger := false, key := [0], uid := 1 }))) ∧
    (set_single_handle (ReadHandle.Sharded [none]) (some 0)
        { srmap := true, trigger := false, key := [0], uid := 1 }
      = some (ReadHandle.Sharded
          [some { srmap := true, trigger := false, key := [0], uid := 1 }])) ∧
    (set_single_handle
        (ReadHandle.Sharded
          [some { srmap := true, trigger := false, key := [0], uid := 0 }])
        (some 0) { srmap := true, trigger := false, key := [0], uid := 1 }
      = none) ∧
    (set_single_handle
        (ReadHandle.Sharded
          [some { srmap := true, trigger := false, key := [0], uid := 0 }])
        none { srmap := true, trigger := false, key := [0], uid := 1 }
      = none) := by
  refine ⟨(c9_set_single_handle_spec
      (some { srmap := true, trigger := false, key := [0], uid := 0 })
      { srmap := true, trigger := false, key := [0], uid := 1 }
      [none] 0 { srmap := true, trigger := false, key := [0], uid := 0 }).1,
    (c9_set_single_handle_spec
      (some { srmap := true, trigger := false, key := [0], uid := 0 })
      { srmap := true, trigger := false, key := [0], uid := 1 }
      [none] 0 { srmap := true, trigger := false, key := [0], uid := 0 }).2.1 rfl,
    (c9_set_single_handle_spec
      (some { srmap := true, trigger := false, key := [0], uid := 0 })
      { srmap := true, trigger := false, key := [0], uid := 1 }
      [some { srmap := true, trigger := false, key := [0], uid := 0 }] 0
      { srmap := true, trigger := false, key := [0], uid := 0 }).2.2.1 rfl,
    (c9_set_single_handle_spec
      (some { srmap := true, trigger := false, key := [0], uid := 0 })
      { srmap := true, trigger := false, key := [0], uid := 1 }
      [some { srmap := true, trigger := false, key := [0], uid := 0 }] 0
      { srmap := true, trigger := false, key := [0], uid := 0 }).2.2.2 rfl rfl⟩

/-- C10: when the writer has no shared-read backend (`handleSR` is
`None`), `mark_filled` and `mark_hole` are silent no-ops: they return the
writer unchanged — neither the map nor `mem_size` is touched — and never
abort, so the partial-view fill/hole state machine is only effective on
the multi-user backend. -/
theorem c10_single_user_noop (w : WriteHandle) (k : KeyV)
    (hh : w.handleSR = none) :
    (w.mut_with_key k).mark_filled = Except.ok w ∧
    (w.mut_with_key k).mark_hole = Except.ok w := by
  constructor
  · simp [MutWriteHandleEntry.mark_filled, WriteHandle.mut_with_key, hh]
  · simp [MutWriteHandleEntry.mark_hole, WriteHandle.mut_with_key, hh]

/-- Witness for C10 at a concrete single-user writer. -/
theorem c10_single_user_noop_witness :
    ((WriteHandle.mut_with_key
        { handle := some (evConstruct (-1)), handleSR := none, srmap := false,
          pflag := false, cols := 2, key := [0], contiguous := true,
          mem_size := 0, uid := 0 }
        [DataType.DInt 1]).mark_filled
      = Except.ok
        { handle := some (evConstruct (-1)), handleSR := none, srmap := false,
          pflag := false, cols := 2, key := [0], contiguous := true,
          mem_size := 0, uid := 0 }) ∧
    ((WriteHandle.mut_with_key
        { handle := some (evConstruct (-1)), handleSR := none, srmap := false,
          pflag := false, cols := 2, key := [0], contiguous := true,
          mem_size := 0, uid := 0 }
        [DataType.DInt 1]).mark_hole
      = Except.ok
        { handle := some (evConstruct (-1)), handleSR := none, srmap := false,
          pflag := false, cols := 2, key := [0], contiguous := true,
          mem_size := 0, uid := 0 }) :=
  c10_single_user_noop
    { handle := some (evConstruct (-1)), handleSR := none, srmap := false,
      pflag := false, cols := 2, key := [0], contiguous := true,
      mem_size := 0, uid := 0 }
    [DataType.DInt 1] rfl

/-- C5: on a fully materialized view (the reader carries no trigger),
once the map has been published at least once, a key absent from the
published map is answered as the empty bag: `try_find_and` returns
`Ok((Some(f(&[])), meta))`, never `Ok((None, _))`. -/
theorem c5_full_view_absent (st : SRState) (k : KeyV) (r : SingleReadHandle)
    {T : Type} (f : List (List DataType) → T)
    (hin : st.refreshed = true) (habs : bagLookup st.published k = none)
    (hsr : r.srmap = true) (htr : r.trigger = false) :
    try_find_and r (some st) none k f = Except.ok (some (f []), st.meta) := by
  simp [try_find_and, hsr, srReaderGet, hin, habs, htr]

/-- Witness for C5 at a published empty map and a length query. -/
theorem c5_full_view_absent_witness :
    try_find_and { srmap := true, trigger := false, key := [0], uid := 0 }
        (some (srRefresh (srConstruct (-1)))) none [DataType.DInt 1]
        (fun rs => rs.length)
      = Except.ok (some 0, -1) :=
  c5_full_view_absent (srRefresh (srConstruct (-1))) [DataType.DInt 1]
    { srmap := true, trigger := false, key := [0], uid := 0 }
    (fun rs => rs.length) rfl rfl rfl rfl

/-- C6: `mark_filled` aborts (the `unreachable!` panic) exactly when the
writer-side probe `meta_get_and(key, is_empty)` shows an entry for the
key — an already-Filled key; when the probe shows the key absent, the key
is transitioned to Filled-empty (its bag becomes the present-but-empty
bag). -/
theorem c6_mark_filled_spec (w : WriteHandle) (st : SRState) (k : KeyV)
    (hsr : w.handleSR = some st) :
    ((w.mut_with_key k).mark_filled =
      if ((srWriterPeek st w.uid k (fun rs => rs.isEmpty)).1).isSome
      then Except.error Abort.alreadyFilled
      else Except.ok { w with handleSR := some (srClear k st) }) ∧
    bagLookup (srClear k st).cur k = some [] := by
  refine ⟨?_, bagLookup_bagClear_self st.cur k⟩
  simp only [MutWriteHandleEntry.mark_filled, WriteHandle.mut_with_key, hsr]
  rcases hlk : bagLookup st.cur k with _ | bag
  · simp [srWriterPeek, hlk]
  · simp [srWriterPeek, hlk]

/-- Witness for C6 on a fresh map (probe shows the key absent). -/
theorem c6_mark_filled_spec_witness :
    ((WriteHandle.mut_with_key
        { handle := none, handleSR := some (srConstruct (-1)), srmap := true,
          pflag := true, cols := 2, key := [0], contiguous := true,
          mem_size := 0, uid := 0 }
        [DataType.DInt 7]).mark_filled =
      if ((srWriterPeek (srConstruct (-1)) 0 [DataType.DInt 7]
          (fun rs => rs.isEmpty)).1).isSome
      then Except.error Abort.alreadyFilled
      else Except.ok
        { handle := none,
          handleSR := some (srClear [DataType.DInt 7] (srConstruct (-1))),
          srmap := true, pflag := true, cols := 2, key := [0],
          contiguous := true, mem_size := 0, uid := 0 }) ∧
    bagLookup (srClear [DataType.DInt 7] (srConstruct (-1))).cur
        [DataType.DInt 7] = some [] :=
  c6_mark_filled_spec
    { handle := none, handleSR := some (srConstruct (-1)), srmap := true,
      pflag := true, cols := 2, key := [0], contiguous := true,
      mem_size := 0, uid := 0 }
    (srConstruct (-1)) [DataType.DInt 7] rfl

/-- C7: a successful `mark_hole(key)` subtracts exactly the key's current
aggregated deep size (0 when the key is absent or its bag empty) from
`mem_size` once, removes the key's entry, and after the next `swap` a
partial-view reader (trigger present) gets `Ok((None, meta))` for that
key. -/
theorem c7_mark_hole_spec (w : WriteHandle) (st : SRState) (k : KeyV)
    (w' : WriteHandle) (r : SingleReadHandle) {T : Type}
    (f : List (List DataType) → T)
    (hs : w.srmap = true) (hsr : w.handleSR = some st)
    (hok : (w.mut_with_key k).mark_hole = Except.ok w')
    (hrs : r.srmap = true) (hrt : r.trigger = true) :
    holeSizeAt st w.uid k ≤ w.mem_size ∧
    w'.mem_size = w.mem_size - holeSizeAt st w.uid k ∧
    w'.handleSR = some (srEmpty k st) ∧
    bagLookup (srEmpty k st).cur k = none ∧
    try_find_and r (w'.swap).handleSR (w'.swap).handle k f
      = Except.ok (none, st.meta) := by
  simp only [MutWriteHandleEntry.mark_hole, WriteHandle.mut_with_key, hsr] at hok
  split at hok
  next hle =>
    obtain hok := Except.ok.inj hok
    subst hok
    refine ⟨hle, rfl, rfl, bagLookup_bagRemove_self st.cur k, ?_⟩
    simp only [WriteHandle.swap, hs, if_true]
    simp [try_find_and, hrs, srReaderGet, srRefresh, srEmpty,
      bagLookup_bagRemove_self, hrt]
  next =>
    simp at hok

/-- Witness for C7 on a fresh partial-view writer (key absent, size 0). -/
theorem c7_mark_hole_spec_witness :
    holeSizeAt (srConstruct (-1)) 0 [DataType.DInt 7] ≤ 0 ∧
    (WriteHandle.mem_size
        { handle := none,
          handleSR := some (srEmpty [DataType.DInt 7] (srConstruct (-1))),
          srmap := true, pflag := true, cols := 2, key := [0],
          contiguous := true,
          mem_size := 0 - holeSizeAt (srConstruct (-1)) 0 [DataType.DInt 7],
          uid := 0 })
      = 0 - holeSizeAt (srConstruct (-1)) 0 [DataType.DInt 7] ∧
    (WriteHandle.handleSR
        { handle := none,
          handleSR := some (srEmpty [DataType.DInt 7] (srConstruct (-1))),
          srmap := true, pflag := true, cols := 2, key := [0],
          contiguous := true,
          mem_size := 0 - holeSizeAt (srConstruct (-1)) 0 [DataType.DInt 7],
          uid := 0 })
      = some (srEmpty [DataType.DInt 7] (srConstruct (-1))) ∧
    bagLookup (srEmpty [DataType.DInt 7] (srConstruct (-1))).cur
        [DataType.DInt 7] = none ∧
    try_find_and { srmap := true, trigger := true, key := [0], uid := 0 }
        ((WriteHandle.swap
          { handle := none,
            handleSR := some (srEmpty [DataType.DInt 7] (srConstruct (-1))),
            srmap := true, pflag := true, cols := 2, key := [0],
            contiguous := true,
            mem_size := 0 - holeSizeAt (srConstruct (-1)) 0 [DataType.DInt 7],
            uid := 0 }).handleSR)
        ((WriteHandle.swap
          { handle := none,
            handleSR := some (srEmpty [DataType.DInt 7] (srConstruct (-1))),
            srmap := true, pflag := true, cols := 2, key := [0],
            contiguous := true,
            mem_size := 0 - holeSizeAt (srConstruct (-1)) 0 [DataType.DInt 7],
            uid := 0 }).handle)
        [DataType.DInt 7] (fun rs => rs.length)
      = Except.ok (none, (srConstruct (-1)).meta) :=
  c7_mark_hole_spec
    { handle := none, handleSR := some (srConstruct (-1)), srmap := true,
      pflag := true, cols := 2, key := [0], contiguous := true,
      mem_size := 0, uid := 0 }
    (srConstruct (-1)) [DataType.DInt 7] _
    { srmap := true, trigger := true, key := [0], uid := 0 }
    (fun rs => rs.length) rfl rfl rfl rfl rfl

/-- C8: `evict_random_key` returns 0 and changes nothing when
`mem_size = 0`; when `mem_size > 0` and the backing map is non-empty it
removes the pseudo-randomly chosen key, subtracts that key's aggregated
deep size from `mem_size` and returns that size; and `mem_size > 0` with
an empty backing map is the fatal `unreachable!`. -/
theorem c8_evict_spec (w : WriteHandle) (st : SRState) (n : Nat)
    (hs : w.srmap = true) (hsr : w.handleSR = some st)
    (hfit : evictPickSize st n ≤ w.mem_size) :
    w.evict_random_key n =
      if w.mem_size = 0 then Except.ok (w, 0)
      else if srIsEmpty st then Except.error Abort.evictEmpty
      else Except.ok
        ({ w with
             handleSR := some (srEmptyAtIndex n st).2,
             mem_size := w.mem_size - evictPickSize st n },
         evictPickSize st n) := by
  simp only [WriteHandle.evict_random_key, hs, if_true, hsr]
  have hb : (match (srEmptyAtIndex n st).1 with
      | none => 0
      | some vs => sumSizes vs) = evictPickSize st n := rfl
  by_cases hmem : 0 < w.mem_size
  · rw [if_pos hmem, if_neg (show ¬w.mem_size = 0 from by omega)]
    by_cases hemp : srIsEmpty st = true
    · rw [if_pos hemp, if_pos hemp]
    · rw [if_neg hemp, if_neg hemp, hb, if_pos hfit]
  · rw [if_neg hmem, if_pos (show w.mem_size = 0 from by omega)]

/-- Witness for C8 on a zero-size writer (the `mem_size = 0` branch). -/
theorem c8_evict_spec_witness :
    WriteHandle.evict_random_key
        { handle := none, handleSR := some (srConstruct (-1)), srmap := true,
          pflag := false, cols := 2, key := [0], contiguous := true,
          mem_size := 0, uid := 0 } 3
      = if (0 : Nat) = 0 then
          Except.ok
            ({ handle := none, handleSR := some (srConstruct (-1)),
               srmap := true, pflag := false, cols := 2, key := [0],
               contiguous := true, mem_size := 0, uid := 0 }, 0)
        else if srIsEmpty (srConstruct (-1)) then Except.error Abort.evictEmpty
        else Except.ok
          ({ handle := none,
             handleSR := some (srEmptyAtIndex 3 (srConstruct (-1))).2,
             srmap := true, pflag := false, cols := 2, key := [0],
             contiguous := true,
             mem_size := 0 - evictPickSize (srConstruct (-1)) 3, uid := 0 },
           evictPickSize (srConstruct (-1)) 3) :=
  c8_evict_spec
    { handle := none, handleSR := some (srConstruct (-1)), srmap := true,
      pflag := false, cols := 2, key := [0], contiguous := true,
      mem_size := 0, uid := 0 }
    (srConstruct (-1)) 3 rfl rfl (by decide)

/-- C2 counterexample: the accounting law fails once `clone_new_user` is
in the operation mix. Writer 0 adds record `[1,"a"]` (17 bytes); cloning
writer 0 copies its `mem_size` (17) into writer 1; writer 1 then adds
`[1,"b"]` (17 bytes) to the shared backing map. The shared current state
now holds 34 bytes while writer 0's `mem_size` is still 17, so "the
writer's mem_size equals the sum of deep_size_of over all records in the
published plus staged state" does not hold for writer 0 (nor does any
per-writer reading hold for both writers). -/
theorem c2_counterexample :
    ((execMs
        [MOp.madd 0 [Record.positive [DataType.DInt 1, DataType.DText "a"]],
         MOp.mclone 0,
         MOp.madd 1 [Record.positive [DataType.DInt 1, DataType.DText "b"]]]
        (msInit 2 [0] 0)).map
        (fun s =>
          ((s.writers.headD { mem_size := 0, uid := 0, key := [], cols := 0 }).mem_size,
           srTotal s.sr))
      = some (17, 34)) ∧ (17 : Nat) ≠ 34 := by
  exact ⟨rfl, by decide⟩

/-- C2 (amended): for a single writer handle fresh from the factory, every
sequence of `add` / `swap` / `mark_filled` / `mark_hole` /
`evict_random_key` operations keeps `mem_size` equal to the sum of
`deep_size_of` over all records in the published plus staged state, and no
operation underflows it (an operation that would go negative is the
`checked_sub` abort, which never fires; eviction from a non-empty-size
writer with an empty map never fires either). The law does not survive
`clone_new_user`, which copies `mem_size` across writers sharing one map
(see the counterexample). -/
theorem c2_accounting_single_writer (b : Bool) (cols : Nat) (kc : List Nat)
    (tr : Bool) (uid : Nat) (ops : List WOp) (r : SingleReadHandle)
    (w0 : WriteHandle) (hmk : new_inner b cols kc tr uid = some (r, w0)) :
    memGood (wExecs ops w0) := by
  cases kc with
  | nil => simp [new_inner] at hmk
  | cons a rest =>
    have hw0 : w0.srmap = true ∧ w0.handle = none ∧
        w0.handleSR = some (srConstruct (-1)) ∧ w0.mem_size = 0 := by
      simp only [new_inner] at hmk
      obtain ⟨h1, h2⟩ := Prod.mk.injEq .. ▸ Option.some.inj hmk
      subst h2
      exact ⟨rfl, rfl, rfl, rfl⟩
    exact wExecs_memGood ops w0
      ⟨hw0.1, hw0.2.1, srConstruct (-1), hw0.2.2.1, hw0.2.2.2,
       fun e he => absurd he (List.not_mem_nil e),
       List.nodup_nil⟩

/-- Witness for C2's amended theorem: a concrete add-then-publish run. -/
theorem c2_accounting_single_writer_witness :
    memGood (wExecs
      [WOp.add [Record.positive [DataType.DInt 1, DataType.DText "a"]],
       WOp.swap]
      { handle := none, handleSR := some (srConstruct (-1)), srmap := true,
        pflag := false, cols := 2, key := [0], contiguous := true,
        mem_size := 0, uid := 0 }) :=
  c2_accounting_single_writer true 2 [0] false 0
    [WOp.add [Record.positive [DataType.DInt 1, DataType.DText "a"]],
     WOp.swap]
    { srmap := true, trigger := false, key := [0], uid := 0 }
    { handle := none, handleSR := some (srConstruct (-1)), srmap := true,
      pflag := false, cols := 2, key := [0], contiguous := true,
      mem_size := 0, uid := 0 }
    rfl

/-- C4: a freshly allocated (reader, writer) pair starts with writer
`mem_size = 0`, and a read through the paired reader returns `Err(())`
exactly until the writer's first `swap`: for every surviving operation
sequence, `try_find_and` (any key, any function) errors iff the sequence
contains no `swap`; after a `swap` it never errors again. -/
theorem c4_not_ready_until_swap (b : Bool) (cols : Nat) (kc : List Nat)
    (tr : Bool) (uid : Nat) (ops : List WOp) (r : SingleReadHandle)
    (w0 w' : WriteHandle) (k : KeyV) {T : Type} (f : List (List DataType) → T)
    (hmk : new_inner b cols kc tr uid = some (r, w0))
    (hok : wExecs ops w0 = Except.ok w') :
    w0.mem_size = 0 ∧
    (try_find_and r w'.handleSR w'.handle k f = Except.error ()
      ↔ WOp.swap ∉ ops) := by
  cases kc with
  | nil => simp [new_inner] at hmk
  | cons a rest =>
    simp only [new_inner] at hmk
    obtain ⟨h1, h2⟩ := Prod.mk.injEq .. ▸ Option.some.inj hmk
    subst h1
    subst h2
    obtain ⟨st', hsr', hs', hsh', hrf', hmt'⟩ :=
      wExecs_shape ops _ (srConstruct (-1)) rfl rfl w' hok
    refine ⟨rfl, ?_⟩
    rw [swap_mem_iff_any]
    have hrf : st'.refreshed = ops.any WOp.isSwap := by
      rw [hrf']
      simp [srConstruct]
    simp only [try_find_and, hsr', srReaderGet, hrf]
    cases hany : ops.any WOp.isSwap
    · simp
    · simp only [if_pos rfl, eq_self_iff_true, if_true]
      constructor
      · intro hc
        split at hc <;> simp at hc
      · intro hc
        simp at hc

/-- Witness for C4: one `swap` makes the read succeed. -/
theorem c4_not_ready_until_swap_witness :
    ({ handle := none, handleSR := some (srConstruct (-1)), srmap := true,
       pflag := false, cols := 2, key := [0], contiguous := true,
       mem_size := 0, uid := 0 } : WriteHandle).mem_size = 0 ∧
    (try_find_and { srmap := true, trigger := false, key := [0], uid := 0 }
        ({ handle := none, handleSR := some (srRefresh (srConstruct (-1))),
           srmap := true, pflag := false, cols := 2, key := [0],
           contiguous := true, mem_size := 0, uid := 0 } : WriteHandle).handleSR
        ({ handle := none, handleSR := some (srRefresh (srConstruct (-1))),
           srmap := true, pflag := false, cols := 2, key := [0],
           contiguous := true, mem_size := 0, uid := 0 } : WriteHandle).handle
        [DataType.DInt 1] (fun rs => rs.length)
      = Except.error ()
      ↔ WOp.swap ∉ [WOp.swap]) :=
  c4_not_ready_until_swap true 2 [0] false 0 [WOp.swap]
    { srmap := true, trigger := false, key := [0], uid := 0 }
    { handle := none, handleSR := some (srConstruct (-1)), srmap := true,
      pflag := false, cols := 2, key := [0], contiguous := true,
      mem_size := 0, uid := 0 }
    { handle := none, handleSR := some (srRefresh (srConstruct (-1))),
      srmap := true, pflag := false, cols := 2, key := [0],
      contiguous := true, mem_size := 0, uid := 0 }
    [DataType.DInt 1] (fun rs => rs.length) rfl rfl

/-- C1 (round-trip law, full view): for every sequence of `add` batches
followed by `swap` on a pair fresh from `new`, a `try_find_and(key,
identity)` returns exactly the bag given by the spec-side
characterization: the positive records projected to the key minus the
negatives that cancel them, each Negative removing one matching
occurrence (an absent key reads as the empty bag on a full view). -/
theorem c1_round_trip (b : Bool) (cols : Nat) (kc : List Nat) (uid : Nat)
    (batches : List (List Record)) (k : KeyV) (r : SingleReadHandle)
    (w0 : WriteHandle) (hmk : new b cols kc uid = some (r, w0)) :
    ∃ w', wExecs (batches.map WOp.add ++ [WOp.swap]) w0 = Except.ok w' ∧
      try_find_and r w'.handleSR w'.handle k (fun rs => rs)
        = Except.ok (some (specBagAt kc k batches.flatten), -1) := by
  cases kc with
  | nil => simp [new, new_inner] at hmk
  | cons a rest =>
    simp only [new, new_inner] at hmk
    obtain ⟨h1, h2⟩ := Prod.mk.injEq .. ▸ Option.some.inj hmk
    subst h1
    subst h2
    obtain ⟨w₁, st₁, hexec, hsr₁, hs₁, hh₁, hu₁, hpub, hrf, hmt, hvis⟩ :=
      wExecs_adds (a :: rest) cols uid batches
        { handle := none, handleSR := some (srConstruct (-1)), srmap := true,
          pflag := false, cols := cols, key := a :: rest,
          contiguous := contiguousKey (a :: rest), mem_size := 0, uid := uid }
        (srConstruct (-1))
        rfl rfl rfl rfl rfl rfl rfl
        (fun e he => absurd he (List.not_mem_nil e)) List.nodup_nil
    refine ⟨w₁.swap, ?_, ?_⟩
    · rw [wExecs_append, hexec]
      simp only [wExecs, wExec]
    · have hsw : (w₁.swap).handleSR = some (srRefresh st₁) := by
        unfold WriteHandle.swap
        rw [hs₁, if_pos rfl, hsr₁]
        rfl
      have hmeta : st₁.meta = -1 := hmt
      have hb : specBagAt (a :: rest) k batches.flatten
          = visAt uid st₁.cur k := (hvis k).symm
      rw [hsw]
      simp only [try_find_and, srReaderGet, srRefresh]
      rcases hlk : bagLookup st₁.cur k with _ | bag
      · rw [hb, visAt_eq_none uid st₁.cur k hlk]
        simp [hmeta]
      · rw [hb, visAt_eq_of_lookup uid st₁.cur k bag hlk]
        simp [hmeta, hu₁]

/-- Witness for C1: a one-batch run with a single positive record. -/
theorem c1_round_trip_witness :
    ∃ w', wExecs
        ([[Record.positive [DataType.DInt 1, DataType.DText "a"]]].map WOp.add
          ++ [WOp.swap])
        { handle := none, handleSR := some (srConstruct (-1)), srmap := true,
          pflag := false, cols := 2, key := [0], contiguous := true,
          mem_size := 0, uid := 0 }
      = Except.ok w' ∧
      try_find_and { srmap := true, trigger := false, key := [0], uid := 0 }
          w'.handleSR w'.handle [DataType.DInt 1] (fun rs => rs)
        = Except.ok
          (some (specBagAt [0] [DataType.DInt 1]
            [[Record.positive [DataType.DInt 1, DataType.DText "a"]]].flatten),
           -1) :=
  c1_round_trip true 2 [0] 0
    [[Record.positive [DataType.DInt 1, DataType.DText "a"]]]
    [DataType.DInt 1]
    { srmap := true, trigger := false, key := [0], uid := 0 }
    { handle := none, handleSR := some (srConstruct (-1)), srmap := true,
      pflag := false, cols := 2, key := [0], contiguous := true,
      mem_size := 0, uid := 0 }
    rfl

end Backlog
